import Mathlib

/-!
# Verification of `makeCVExl.py` (CVE enrichment pipeline)

Shallow embedding of the single source file `src/makeCVExl.py`:

* `getCVEInfo`    — cached fetch with bounded retry (source lines 51-83)
* `write_to_excel` — tabular report builder (source lines 85-115)
* `update_excel_with_cve_info` — fetch coordination + enrichment merge
  (source lines 117-183)
* `process_csv_file` — per-file driver (source lines 185-200)

Conventions of the embedding:

* A worksheet is a list of rows, each row a list of cells; `openpyxl`'s
  create-cell-on-demand behaviour of `ws.cell(r, c)` is modelled by
  `padModify`, which pads a list with a default element up to the index
  being written.
* JSON values are an inductive `Json`; JSON numbers carry the text that
  Python's `str()` produces for them, because the program only ever
  converts them to text with `str(...)` and never computes with them.
* Python's dictionary/list accesses (`d.get`, `d[k]`, `l[i]`, `k in d`)
  are partial functions returning `Except PyErr`, mirroring the
  exceptions they can raise.  The merge loop catches exactly
  `json.JSONDecodeError` and `IOError` (source line 177); every other
  error propagates out of the merge, as in the source.
* The network and the worker pool: fetches are modelled per identifier
  through an oracle `Env.net`; the ThreadPoolExecutor dispatch (source
  lines 131-138) is modelled as a sequential fold, which preserves the
  cache effects (each identifier touches only its own cache file) but
  deliberately does not model true concurrency.
-/

/-! ## Generic padded-list update

`padModify d i f l` pads `l` with copies of `d` so that index `i` exists,
then replaces the element at `i` with `f` of the previous value (which is
`d` when the index was newly created).  This models `openpyxl`'s
`ws.cell(row, col)` instantiating missing cells on access. -/

def padModify (d : α) (i : Nat) (f : α → α) (l : List α) : List α :=
  (l ++ List.replicate (i + 1 - l.length) d).set i (f (l.getD i d))

/-! ## JSON values and Python access semantics -/

/-- Errors the Python code can raise while reading cached JSON.
`jsonDecodeError` and `ioError` are the two the merge loop catches
(source line 177); the others escape the per-row handler. -/
inductive PyErr where
  | keyError
  | indexError
  | typeError
  | attributeError
  | jsonDecodeError
  | ioError
  deriving DecidableEq, Repr

/-- JSON values as parsed by `json.load`.  A number carries the string
that Python's `str()` renders it to (the program never computes with
numbers, it only stringifies them). -/
inductive Json where
  | null : Json
  | bool (b : Bool) : Json
  | num (txt : String) : Json
  | str (s : String) : Json
  | arr (items : List Json) : Json
  | obj (fields : List (String × Json)) : Json

/-- Python `str()` of a JSON value, as used in f-strings and `str(...)`.
Lists and dicts never flow into `str(...)` in this program, so their
rendering is a placeholder. -/
def pyStr : Json → String
  | .null => "None"
  | .bool true => "True"
  | .bool false => "False"
  | .num t => t
  | .str s => s
  | .arr _ => "<list>"
  | .obj _ => "<dict>"

/-- Python truthiness (`if not vulnerabilities:`).  A JSON number is falsy
iff it is zero; with numbers carried as their `str()` text the zero
renderings are the listed ones. -/
def pyFalsy : Json → Bool
  | .null => true
  | .bool b => !b
  | .num t => t = "0" || t = "0.0" || t = "-0.0"
  | .str s => s = ""
  | .arr items => items.isEmpty
  | .obj fields => fields.isEmpty

/-- Does `pat` occur at the head of `s`?  (Character-list level; the
built-in UTF-8 string functions are avoided so that concrete runs reduce
inside the kernel.) -/
def leadsWith : List Char → List Char → Bool
  | [], _ => true
  | _ :: _, [] => false
  | p :: ps, c :: cs => p = c && leadsWith ps cs

/-- Does `pat` occur anywhere in `s`? -/
def hasSub : List Char → List Char → Bool
  | pat, [] => pat.isEmpty
  | pat, c :: cs => leadsWith pat (c :: cs) || hasSub pat cs

/-- Substring test, for Python's `'BS' in k` on strings. -/
def containsSub (s pat : String) : Bool := hasSub pat.data s.data

/-- Python `s.startswith(pat)`. -/
def pyStartsWith (s pat : String) : Bool := leadsWith pat.data s.data

/-- Left-to-right, non-overlapping replacement of `pat` by `rep`, as in
Python's `str.replace`.  The `skip` counter consumes the remainder of a
match that has already been emitted. -/
def replaceAux (pat rep : List Char) : List Char → Nat → List Char
  | [], _ => []
  | c :: cs, 0 =>
    if leadsWith pat (c :: cs) && !pat.isEmpty then
      rep ++ replaceAux pat rep cs (pat.length - 1)
    else c :: replaceAux pat rep cs 0
  | _ :: cs, skip + 1 => replaceAux pat rep cs skip

/-- Python `s.replace(old, rep)` (for the non-empty `old` this program
uses). -/
def pyReplace (s old rep : String) : String := ⟨replaceAux old.data rep.data s.data 0⟩

/-- Python `d.get(k, default)`: on a dict returns the value or the
default, on anything else raises `AttributeError`. -/
def Json.dictGet : Json → String → Json → Except PyErr Json
  | .obj fields, k, d => .ok (((fields.lookup k).getD d))
  | _, _, _ => .error .attributeError

/-- Python `d[k]` with a string key: `KeyError` when absent,
`TypeError` when the value is not a dict. -/
def Json.item : Json → String → Except PyErr Json
  | .obj fields, k =>
    match fields.lookup k with
    | some v => .ok v
    | none => .error .keyError
  | _, _ => .error .typeError

/-- Python `l[i]` with a non-negative integer index: `IndexError` when out
of range, `TypeError` when the value is not a list. -/
def Json.index : Json → Nat → Except PyErr Json
  | .arr items, i =>
    match items.get? i with
    | some v => .ok v
    | none => .error .indexError
  | _, _ => .error .typeError

/-- Equality of a JSON value with a Python string, for `in` on lists. -/
def jsonIsStr : Json → String → Bool
  | .str s, k => s = k
  | _, _ => false

/-- Python `k in v` for a string `k`: key membership on dicts, element
membership on lists, substring test on strings, `TypeError` otherwise. -/
def Json.hasKey : Json → String → Except PyErr Bool
  | .obj fields, k => .ok (fields.any (fun kv => kv.1 = k))
  | .arr items, k => .ok (items.any (fun j => jsonIsStr j k))
  | .str s, k => .ok (containsSub s k)
  | _, _ => .error .typeError

/-! ## Logging, cache store, network -/

/-- Events emitted to the logger.  Each constructor corresponds to one
`logger.*` call site in the source; the log is kept as a list with the
most recent event first. -/
inductive LogEvent where
  | fetchStart (id : String)        -- line 59
  | saved (id : String)             -- line 70
  | requestFailed (attempt : Nat)   -- line 74
  | slept                           -- line 76 (`time.sleep(1)`, the fixed 1-second pause)
  | fetchGaveUp                     -- line 78
  | cacheWriteError (id : String)   -- line 80
  | alreadyCached (id : String)     -- line 83
  | xlsxMissing                     -- line 121
  | cacheMissing (key : String)     -- line 146
  | noVulns (key : String)          -- line 154
  | noScores (key : String)         -- line 173
  | scoresInfo (key : String)       -- line 176
  | rowError (row : Nat)            -- line 178
  | fileError                       -- line 200
  deriving DecidableEq, Repr

/-- Content of one cache file `cache/{id}.json`.  `unreadable` stands for
a file whose `open`/read raises `IOError`; `unparseable` for one on which
`json.load` raises `JSONDecodeError`; `parsed` for well-formed JSON. -/
inductive CacheFile where
  | unreadable : CacheFile
  | unparseable : CacheFile
  | parsed (j : Json) : CacheFile

/-- The cache directory: one entry per file, keyed by the identifier the
file is named after (`os.path.isfile`/`open` index it by that name). -/
abbrev Cache := List (String × CacheFile)

/-- Outcome of one `requests.get` + `raise_for_status`.  `ok body` is a
successful response whose body parses as `body`; `requestError` is any
`requests.RequestException` (connection failure or HTTP error status). -/
inductive NetResult where
  | ok (body : Json)
  | requestError

/-- External oracles: the network's answer for identifier `id` on the
`n`-th attempt, and whether writing the cache file for `id` succeeds. -/
structure Env where
  net : String → Nat → NetResult
  writeOk : String → Bool

/-- Mutable program state threaded through the run: the cache directory,
the logger output, and counters for the observable effects `requests.get`
and `time.sleep(1)`. -/
structure St where
  cache : Cache
  log : List LogEvent
  requests : Nat
  sleeps : Nat

/-! ## Vulnerability fetcher (`getCVEInfo`, source lines 51-83) -/

/-- The retry loop of `getCVEInfo` (lines 60-81): `while attempt <
max_attempts`.  Translated with explicit fuel `maxAttempts - attempt`, so
the `fuel = 0` case is the loop exiting because `attempt` reached
`max_attempts`.  One iteration: perform the request (counted in
`requests`); on success write the cache file and break (or log an
`IOError` and break if the write fails); on `RequestException` increment
`attempt`, log the failure, and either sleep one second (when attempts
remain) or log that the fetch is given up. -/
def fetchLoop (env : Env) (id : String) (maxAttempts : Nat) :
    Nat → Nat → St → St
  | 0, _, st => st
  | fuel + 1, attempt, st =>
    match env.net id attempt with
    | .ok body =>
      if env.writeOk id then
        { st with requests := st.requests + 1,
                  cache := (id, .parsed body) :: st.cache,
                  log := .saved id :: st.log }
      else
        { st with requests := st.requests + 1,
                  log := .cacheWriteError id :: st.log }
    | .requestError =>
      let st' := { st with requests := st.requests + 1,
                           log := .requestFailed (attempt + 1) :: st.log }
      if attempt + 1 < maxAttempts then
        fetchLoop env id maxAttempts fuel (attempt + 1)
          { st' with sleeps := st'.sleeps + 1, log := .slept :: st'.log }
      else
        fetchLoop env id maxAttempts fuel (attempt + 1)
          { st' with log := .fetchGaveUp :: st'.log }

/-- `getCVEInfo(CVEID)` (lines 51-83): skip with a log message when the
cache file already exists, otherwise run the retry loop with
`max_attempts = 3` starting at `attempt = 0`. -/
def getCVEInfo (env : Env) (id : String) (st : St) : St :=
  if (st.cache.lookup id).isSome then
    { st with log := .alreadyCached id :: st.log }
  else
    fetchLoop env id 3 3 0 { st with log := .fetchStart id :: st.log }

/-- The ThreadPoolExecutor dispatch (lines 131-138), modelled as a
sequential fold: one `getCVEInfo` call per listed identifier.  Each
identifier touches only its own cache file, so the sequentialisation
preserves the final cache; the pool's timing itself is not modelled. -/
def runCoordinator (env : Env) (ids : List String) (st : St) : St :=
  ids.foldl (fun st id => getCVEInfo env id st) st

/-! ## Worksheet model -/

/-- One spreadsheet cell: a value and an optional solid fill colour. -/
structure Cell where
  value : Json
  fill : Option String

def emptyCell : Cell := ⟨.null, none⟩

/-- A worksheet: list of rows (row 1 is the header), each a list of
cells.  Cells absent from the lists read as `emptyCell`, matching
`openpyxl` returning `None`-valued cells. -/
abbrev Sheet := List (List Cell)

def getRow (ws : Sheet) (r : Nat) : List Cell := ws.getD (r - 1) []

def getCell (ws : Sheet) (r c : Nat) : Cell := (getRow ws r).getD (c - 1) emptyCell

def getCellValue (ws : Sheet) (r c : Nat) : Json := (getCell ws r c).value

/-- Row-level update used by `ws.cell(r, c).value = v`. -/
def setValFn (ci : Nat) (v : Json) : List Cell → List Cell :=
  padModify emptyCell ci (fun cell => { cell with value := v })

/-- `ws.cell(r, c).value = v` (1-indexed), creating the cell on demand. -/
def setCellValue (ws : Sheet) (r c : Nat) (v : Json) : Sheet :=
  padModify [] (r - 1) (setValFn (c - 1) v) ws

def padToRow (n : Nat) (row : List Cell) : List Cell :=
  row ++ List.replicate (n - row.length) emptyCell

/-- Row-level effect of `fill_row_with_color` (lines 46-49): `sheet[r]`
yields one cell per column up to `max_column`, and every one of them gets
the solid fill.  The workbook's header row fixes `max_column` at 13
(`COLUMN_INDEXES` has 13 entries), so the row is padded to 13 cells. -/
def fillAllFn (color : String) (row : List Cell) : List Cell :=
  (padToRow 13 row).map (fun cell => { cell with fill := some color })

def fillRow (ws : Sheet) (r : Nat) (color : String) : Sheet :=
  padModify [] (r - 1) (fillAllFn color) ws

/-! ## Column schema (source lines 30-44) -/

/-- `COLUMN_INDEXES`, in dict insertion order. -/
def columnOrder : List (String × Nat) :=
  [("PluginID", 1), ("Risk", 2), ("Name", 3), ("CVE", 4), ("CWE", 5),
   ("V20BS", 6), ("V20Vector", 7), ("V30BS", 8), ("V30Vector", 9),
   ("V31BS", 10), ("V31Vector", 11), ("V40BS", 12), ("V40Vector", 13)]

def colIndex (name : String) : Nat := (columnOrder.lookup name).getD 0

/-- `PatternFill(start_color='D3D3D3', ...)` (line 174). -/
def grayFill : String := "D3D3D3"

/-! ## Report builder (`write_to_excel`, source lines 85-115) -/

/-- The fields of one CSV row that `write_to_excel` reads
(`row_data.get('Plugin ID', '')` etc., line 102-106), pre-extracted with
their empty-string defaults. -/
structure Finding where
  pluginID : String
  risk : String
  name : String
  deriving DecidableEq, Repr

/-- One row of the input CSV, as produced by `csv.DictReader`. -/
structure CsvRow where
  pluginID : String
  risk : String
  name : String
  cve : String
  deriving DecidableEq, Repr

def CsvRow.finding (r : CsvRow) : Finding := ⟨r.pluginID, r.risk, r.name⟩

/-- The dict comprehension of line 195:
`{row['CVE']: row for row in reader if row['CVE']}`.  A Python dict keeps
the position of the first insertion of a key and the value of the last
one. -/
def upsert (l : List (String × Finding)) (k : String) (v : Finding) :
    List (String × Finding) :=
  if l.any (fun kv => kv.1 = k) then
    l.map (fun kv => if kv.1 = k then (k, v) else kv)
  else l ++ [(k, v)]

def buildCvedict (rows : List CsvRow) : List (String × Finding) :=
  rows.foldl (fun acc row => if row.cve = "" then acc else upsert acc row.cve row.finding) []

/-- Inner loop of lines 111-113: write the collected values of one row
into consecutive columns starting at `c`. -/
def writeCols : Sheet → Nat → Nat → List String → Sheet
  | ws, _, _, [] => ws
  | ws, r, c, v :: vs => writeCols (setCellValue ws r c (.str v)) r (c + 1) vs

/-- Outer loop of lines 111-113: write one collected row per sheet row,
starting at row 2. -/
def writeRows : Sheet → Nat → List (List String) → Sheet
  | ws, _, [] => ws
  | ws, r, row :: rest => writeRows (writeCols ws r 1 row) (r + 1) rest

/-- The fresh-workbook branch of lines 91-97: a new sheet whose header
row is written from `COLUMN_INDEXES`. -/
def freshSheet : Sheet :=
  columnOrder.foldl (fun ws kv => setCellValue ws 1 kv.2 (.str kv.1)) []

/-- The collected values of one report row (lines 101-108):
`[row_data.get('Plugin ID', ''), .get('Risk', ''), .get('Name', ''), cveid]`. -/
def rowVals (kv : String × Finding) : List String :=
  [kv.2.pluginID, kv.2.risk, kv.2.name, kv.1]

/-- Placeholder entry used as the `getD` default in statements about
`cvedict`; rows are only ever read at indexes below the dict's length. -/
def noEntry : String × Finding := ("", ⟨"", "", ""⟩)

/-- `write_to_excel(basename, cvedict)` (lines 85-115): open the existing
document or create one with the header; collect `[PluginID, Risk, Name,
cveid]` per dict entry (lines 100-108); write them to rows 2.. (lines
111-113); save.  The saved sheet is returned. -/
def write_to_excel (existing : Option Sheet) (cvedict : List (String × Finding)) : Sheet :=
  let ws := match existing with
    | some ws => ws
    | none => freshSheet
  writeRows ws 2 (cvedict.map rowVals)

/-! ## Enrichment merger (`update_excel_with_cve_info`, source lines 117-183) -/

/-- The CVE cell of row `r` rendered as the cache-file key
(`filename = f"cache/{cveid}.json"`, line 143). -/
def rowKey (ws : Sheet) (r : Nat) : String := pyStr (getCellValue ws r 4)

/-- Lines 159-160: if `"weaknesses" in cve_info`, extract
`cve_info["weaknesses"][0]["description"][0]["value"]` for the CWE cell;
`none` when the key is absent. -/
def cweVal (cveInfo : Json) : Except PyErr (Option Json) :=
  match cveInfo.hasKey "weaknesses" with
  | .error e => .error e
  | .ok false => .ok none
  | .ok true =>
    match cveInfo.item "weaknesses" with
    | .error e => .error e
    | .ok w =>
      match w.index 0 with
      | .error e => .error e
      | .ok w0 =>
        match w0.item "description" with
        | .error e => .error e
        | .ok d =>
          match d.index 0 with
          | .error e => .error e
          | .ok d0 => d0.item "value"

/-- Lines 164-167 for one scheme version `(cvss_key, cvss_label)`: when
`cvss_key in cvss_dicts`, extract `cvss_dicts[cvss_key][0]["cvssData"]`
and return `str(baseScore)` together with
`str(vectorString).replace(f"CVSS:{label}/", "")`.  Note the replaced
text is built from the column label (`V31` etc.), not from the scheme
version that appears in real vector strings (`3.1` etc.). -/
def versionVal (cvssDicts : Json) (pair : String × String) :
    Except PyErr (Option (String × String)) :=
  match cvssDicts.hasKey pair.1 with
  | .error e => .error e
  | .ok false => .ok none
  | .ok true =>
    match cvssDicts.item pair.1 with
    | .error e => .error e
    | .ok entry =>
      match entry.index 0 with
      | .error e => .error e
      | .ok e0 =>
        match e0.item "cvssData" with
        | .error e => .error e
        | .ok cvssData =>
          match cvssData.item "baseScore" with
          | .error e => .error e
          | .ok bs =>
            match cvssData.item "vectorString" with
            | .error e => .error e
            | .ok vec =>
              .ok (some (pyStr bs,
                pyReplace (pyStr vec) ("CVSS:" ++ pair.2 ++ "/") ""))

/-- The version list of line 163. -/
def versionPairs : List (String × String) :=
  [("cvssMetricV2", "V20"), ("cvssMetricV30", "V30"),
   ("cvssMetricV31", "V31"), ("cvssMetricV40", "V40")]

/-- Line 162: `{key: "N/A" for key in COLUMN_INDEXES if key.startswith('V')}`. -/
def initScores : List (String × String) :=
  (columnOrder.filter (fun kv => pyStartsWith kv.1 "V")).map (fun kv => (kv.1, "N/A"))

/-- Python dict assignment `CVSSScores[k] = v` for a key that is present. -/
def setScore (scores : List (String × String)) (k v : String) :
    List (String × String) :=
  scores.map (fun kv => if kv.1 = k then (k, v) else kv)

/-- The loop of lines 163-169 over the four scheme versions, collecting
the updated score dict and the list of `(column, text)` cell writes it
performs. -/
def versionsAux (cvssDicts : Json) :
    List (String × String) → List (String × String) × List (Nat × String) →
    Except PyErr (List (String × String) × List (Nat × String))
  | [], acc => .ok acc
  | p :: ps, (scores, writes) =>
    match versionVal cvssDicts p with
    | .error e => .error e
    | .ok none => versionsAux cvssDicts ps (scores, writes)
    | .ok (some (bs, vec)) =>
      versionsAux cvssDicts ps
        (setScore (setScore scores (p.2 ++ "BS") bs) (p.2 ++ "Vector") vec,
         writes ++ [(colIndex (p.2 ++ "BS"), bs), (colIndex (p.2 ++ "Vector"), vec)])

def versionsVal (cvssDicts : Json) :
    Except PyErr (List (String × String) × List (Nat × String)) :=
  versionsAux cvssDicts versionPairs (initScores, [])

/-- Lines 171-172: `CVSSBaseScores = {k: v for k, v in CVSSScores.items()
if 'BS' in k}` and `all(score == "N/A" for score in ...)`. -/
def allNA (scores : List (String × String)) : Bool :=
  (scores.filter (fun kv => containsSub kv.1 "BS")).all (fun kv => kv.2 = "N/A")

/-- What the per-row body (lines 150-176) decides from the parsed cache
file alone.  The body never reads the sheet — it only writes to it — so
everything it does is determined by the JSON record:
`noVulns` is the `continue` of lines 153-155; `enrich cwe writes
highlight` records the optional CWE value, the score/vector cell writes,
and whether the all-N/A highlight of lines 172-174 fires. -/
inductive RowVerdict where
  | noVulns
  | enrich (cwe : Option Json) (writes : List (Nat × String)) (highlight : Bool)

def rowVerdict (j : Json) : Except PyErr RowVerdict :=
  match j.dictGet "vulnerabilities" (.arr []) with
  | .error e => .error e
  | .ok vulnerabilities =>
    if pyFalsy vulnerabilities then .ok .noVulns
    else
      match vulnerabilities.index 0 with
      | .error e => .error e
      | .ok v0 =>
        match v0.dictGet "cve" (.obj []) with
        | .error e => .error e
        | .ok cveInfo =>
          match cveInfo.dictGet "metrics" (.obj []) with
          | .error e => .error e
          | .ok cvssDicts =>
            match cweVal cveInfo with
            | .error e => .error e
            | .ok cwe =>
              match versionsVal cvssDicts with
              | .error e => .error e
              | .ok (scores, writes) => .ok (.enrich cwe writes (allNA scores))

/-- Perform the cell writes of lines 168-169 on row `r`. -/
def applyWrites : Sheet → Nat → List (Nat × String) → Sheet
  | ws, _, [] => ws
  | ws, r, (c, s) :: rest => applyWrites (setCellValue ws r c (.str s)) r rest

/-- One iteration of the row loop (lines 141-176), for the row numbered
`r`.  The try-block's body either updates the sheet (returning the
events it logs) or raises; raising is the `.error` case, to be caught or
propagated by `updateRows`.  The source interleaves the cell writes with
the JSON accesses; since the accesses never read the sheet, performing
the writes after `rowVerdict` is observationally equal for every saved
document (an uncaught error prevents the save, discarding partial
writes). -/
def processRow (cache : Cache) (ws : Sheet) (log : List LogEvent) (r : Nat) :
    Except PyErr (Sheet × List LogEvent) :=
  match cache.lookup (rowKey ws r) with
  | none => .ok (ws, .cacheMissing (rowKey ws r) :: log)
  | some .unreadable => .error .ioError
  | some .unparseable => .error .jsonDecodeError
  | some (.parsed j) =>
    match rowVerdict j with
    | .error e => .error e
    | .ok .noVulns => .ok (ws, .noVulns (rowKey ws r) :: log)
    | .ok (.enrich cwe writes highlight) =>
      let ws1 := match cwe with
        | none => ws
        | some v => setCellValue ws r 5 v
      let ws2 := applyWrites ws1 r writes
      if highlight then
        .ok (fillRow ws2 r grayFill, .noScores (rowKey ws r) :: log)
      else
        .ok (ws2, .scoresInfo (rowKey ws r) :: log)

/-- Result of running the whole row loop: either every row was handled
(`ok`), or an uncaught exception aborted it (`err`). -/
inductive RowsResult where
  | ok (ws : Sheet) (log : List LogEvent)
  | err (e : PyErr) (log : List LogEvent)

/-- The row loop (lines 141-178): process rows in order; the
`except (json.JSONDecodeError, IOError)` of line 177 catches exactly
those two errors, logs them, and continues with the next row; any other
exception aborts the loop. -/
def updateRows (cache : Cache) (ws : Sheet) (log : List LogEvent) :
    List Nat → RowsResult
  | [] => .ok ws log
  | r :: rest =>
    match processRow cache ws log r with
    | .ok (ws', log') => updateRows cache ws' log' rest
    | .error .jsonDecodeError => updateRows cache ws (.rowError r :: log) rest
    | .error .ioError => updateRows cache ws (.rowError r :: log) rest
    | .error e => .err e log

/-- `ws.iter_rows(min_row=2)` yields rows 2 .. max_row. -/
def dataRowNums (ws : Sheet) : List Nat :=
  (List.range (ws.length - 1)).map (fun i => i + 2)

/-- Line 128: the raw CVE-cell values of all data rows. -/
def cveVals (ws : Sheet) : List Json :=
  (dataRowNums ws).map (fun r => getCellValue ws r 4)

/-- Outcome of `update_excel_with_cve_info`: the file was missing (logged
error, normal return, line 120-122), or the updated document was saved,
or an uncaught exception escaped to the caller (so the state saved by
`write_to_excel` stays on disk). -/
inductive UpdateResult where
  | noFile
  | saved (ws : Sheet)
  | raised (e : PyErr)

/-- `update_excel_with_cve_info(basename)` (lines 117-183): check the
file exists; dispatch one fetch per CVE-cell value (lines 128-138, the
filename key being the `str()` of the value); run the row loop; save.
The final `wb.save` failure case (line 180-183) is logged and non-fatal;
the embedding takes the save to succeed. -/
def update_excel (env : Env) (st : St) (disk : Option Sheet) : St × UpdateResult :=
  match disk with
  | none => ({ st with log := .xlsxMissing :: st.log }, .noFile)
  | some ws =>
    let st1 := runCoordinator env ((cveVals ws).map pyStr) st
    match updateRows st1.cache ws st1.log (dataRowNums ws) with
    | .ok ws' log' => ({ st1 with log := log' }, .saved ws')
    | .err e log' => ({ st1 with log := log' }, .raised e)

/-- `process_csv_file` (lines 185-200) for one already-read CSV file:
build the dict, write the report, then merge.  The surrounding
`except Exception` catches an exception raised out of the merge and logs
it; the document on disk is then the one `write_to_excel` saved.  The
returned sheet is the document on disk after the call. -/
def process_csv_file (env : Env) (st : St) (csvRows : List CsvRow)
    (disk : Option Sheet) : St × Option Sheet :=
  let cvedict := buildCvedict csvRows
  let ws1 := write_to_excel disk cvedict
  match update_excel env st (some ws1) with
  | (st', .saved ws2) => (st', some ws2)
  | (st', .raised _) => ({ st' with log := .fileError :: st'.log }, some ws1)
  | (st', .noFile) => (st', some ws1)

/-! ## Concrete instances used by the closed theorems below -/

/-- Cached NVD record for `CVE-2021-44228` with one `cvssMetricV31` entry
(base score 10.0, scheme-prefixed vector), as in the spec's end-to-end
example. -/
def recV31 : Json :=
  .obj [("vulnerabilities", .arr [
    .obj [("cve", .obj [
      ("weaknesses", .arr [.obj [("description", .arr [.obj [("value", .str "CWE-502")]])]]),
      ("metrics", .obj [("cvssMetricV31", .arr [
        .obj [("cvssData", .obj [
          ("baseScore", .num "10.0"),
          ("vectorString", .str "CVSS:3.1/AV:N/AC:L/PR:N/UI:N/S:C/C:H/I:H/A:H")])]])])])]])]

/-- A lookup response with zero vulnerability entries. -/
def recEmpty : Json := .obj [("vulnerabilities", .arr [])]

/-- A parsed record with one vulnerability entry but no metrics and no
weaknesses. -/
def recNoMetrics : Json := .obj [("vulnerabilities", .arr [.obj [("cve", .obj [])]])]

/-- Environment in which every request fails and cache writes succeed. -/
def envFail : Env := ⟨fun _ _ => .requestError, fun _ => true⟩

/-- The single-row CSV input of the spec's end-to-end example. -/
def csvExample : List CsvRow := [⟨"100", "High", "X", "CVE-2021-44228"⟩]

/-- Empty starting state: empty cache, empty log, no effects yet. -/
def stInit : St := ⟨[], [], 0, 0⟩

/-- State whose cache holds the `cvssMetricV31` record for the example CVE. -/
def stV31 : St := ⟨[("CVE-2021-44228", .parsed recV31)], [], 0, 0⟩

/-- State whose cache holds the zero-vulnerabilities record. -/
def stEmpty : St := ⟨[("CVE-2021-44228", .parsed recEmpty)], [], 0, 0⟩

/-- Cache holding the metrics-free record for the example CVE. -/
def cacheNoMetrics : Cache := [("CVE-2021-44228", .parsed recNoMetrics)]

/-- A two-entry cvedict used by concrete instantiations. -/
def dictTwo : List (String × Finding) :=
  [("CVE-A", ⟨"1", "High", "X"⟩), ("CVE-B", ⟨"2", "Low", "Y"⟩)]

/-- Cache where the first identifier's file is unparseable. -/
def cacheTwo : Cache := [("CVE-A", .unparseable), ("CVE-B", .parsed recV31)]

/-- Project the sheet out of a successful `update_excel` result. -/
def extractSaved : UpdateResult → Sheet
  | .saved ws => ws
  | _ => []

/-! ## Proof infrastructure

Row-level views of the merge's writes: `processRow` only ever modifies
the one row it processes, and the modification is expressible as a
`padModify` of that row by a function built from the cached record.
These definitions are characterisations used by the lemmas below, not
part of the source translation. -/

/-- Row-level effect of the optional CWE write (line 160). -/
def cweRowFn : Option Json → List Cell → List Cell
  | none, row => row
  | some v, row => setValFn 4 v row

/-- Row-level effect of the score/vector writes (lines 168-169). -/
def writesRowFn : List (Nat × String) → List Cell → List Cell
  | [], row => row
  | (c, s) :: rest, row => writesRowFn rest (setValFn (c - 1) (.str s) row)

/-- Row-level effect of the whole enrich branch, fill included. -/
def enrichRowFn (cwe : Option Json) (writes : List (Nat × String))
    (highlight : Bool) (row : List Cell) : List Cell :=
  if highlight then fillAllFn grayFill (writesRowFn writes (cweRowFn cwe row))
  else writesRowFn writes (cweRowFn cwe row)

/-- Forget the log component of a row-loop result, keeping the sheet or
the uncaught error. -/
def RowsResult.sheetOut : RowsResult → Except PyErr Sheet
  | .ok ws _ => .ok ws
  | .err e _ => .error e

/-- Row `r` is a fixpoint of its own processing on sheet `ws`:
reprocessing it succeeds and leaves the sheet unchanged. -/
def RowFixed (cache : Cache) (r : Nat) (ws : Sheet) : Prop :=
  ∀ log, ∃ log', processRow cache ws log r = .ok (ws, log')

/-! # Theorems

First the generic lemmas about `padModify`, then the layers for the
fetcher, the builder and the merger, then one theorem per claim. -/

theorem getD_append_replicate (l : List α) (k : Nat) (d : α) :
    ∀ i, (l ++ List.replicate k d).getD i d = l.getD i d := by
  induction l with
  | nil =>
    intro i
    simp only [List.nil_append, List.getD_nil]
    induction k generalizing i with
    | zero => simp [List.getD_nil]
    | succ k ih =>
      cases i with
      | zero => simp [List.replicate_succ, List.getD_cons_zero]
      | succ i => simpa [List.replicate_succ, List.getD_cons_succ] using ih i
  | cons a l ih =>
    intro i
    cases i with
    | zero => simp [List.getD_cons_zero]
    | succ i => simpa [List.getD_cons_succ] using ih i

theorem getD_set_self (l : List α) (i : Nat) (a d : α) (h : i < l.length) :
    (l.set i a).getD i d = a := by
  induction l generalizing i with
  | nil => simp at h
  | cons b l ih =>
    cases i with
    | zero => simp [List.set]
    | succ i =>
      simp only [List.set, List.getD_cons_succ]
      exact ih i (by simpa using h)

theorem getD_set_ne (l : List α) (i j : Nat) (a d : α) (h : j ≠ i) :
    (l.set i a).getD j d = l.getD j d := by
  induction l generalizing i j with
  | nil => simp [List.set]
  | cons b l ih =>
    cases i with
    | zero =>
      cases j with
      | zero => exact absurd rfl h
      | succ j => simp [List.set]
    | succ i =>
      cases j with
      | zero => simp [List.set]
      | succ j =>
        simp only [List.set, List.getD_cons_succ]
        exact ih i j (fun hh => h (by simp [hh]))

theorem set_getD_self (l : List α) (i : Nat) (d : α) (h : i < l.length) :
    l.set i (l.getD i d) = l := by
  induction l generalizing i with
  | nil => simp at h
  | cons b l ih =>
    cases i with
    | zero => simp [List.set]
    | succ i =>
      simp only [List.set, List.getD_cons_succ, List.cons.injEq, true_and]
      exact ih i (by simpa using h)

theorem padModify_length (d : α) (i : Nat) (f : α → α) (l : List α) :
    (padModify d i f l).length = max l.length (i + 1) := by
  simp [padModify]
  omega

theorem padModify_getD_self (d : α) (i : Nat) (f : α → α) (l : List α) :
    (padModify d i f l).getD i d = f (l.getD i d) := by
  unfold padModify
  rw [getD_set_self]
  simp
  omega

theorem padModify_getD_ne (d : α) (i j : Nat) (f : α → α) (l : List α) (h : j ≠ i) :
    (padModify d i f l).getD j d = l.getD j d := by
  unfold padModify
  rw [getD_set_ne _ _ _ _ _ h, getD_append_replicate]

theorem padModify_noop (d : α) (i : Nat) (f : α → α) (l : List α)
    (hlen : i < l.length) (hfix : f (l.getD i d) = l.getD i d) :
    padModify d i f l = l := by
  unfold padModify
  rw [Nat.sub_eq_zero_of_le (by omega), List.replicate_zero, List.append_nil, hfix,
    set_getD_self _ _ _ hlen]

theorem padModify_of_lt (d : α) (i : Nat) (f : α → α) (l : List α) (h : i < l.length) :
    padModify d i f l = l.set i (f (l.getD i d)) := by
  unfold padModify
  rw [Nat.sub_eq_zero_of_le (by omega), List.replicate_zero, List.append_nil]

theorem padModify_comp (d : α) (i : Nat) (f g : α → α) (l : List α) :
    padModify d i f (padModify d i g l) = padModify d i (fun a => f (g a)) l := by
  have hlen : i < (padModify d i g l).length := by
    rw [padModify_length]; omega
  have hget : (padModify d i g l).getD i d = g (l.getD i d) := padModify_getD_self ..
  rw [padModify_of_lt _ _ _ _ hlen, hget]
  unfold padModify
  rw [List.set_set]

theorem padModify_eq_self (d : α) (i : Nat) (f : α → α) (l : List α)
    (h : padModify d i f l = l) :
    i < l.length ∧ f (l.getD i d) = l.getD i d := by
  have hlen := padModify_length d i f l
  rw [h] at hlen
  have hi : i < l.length := by omega
  have hget := padModify_getD_self d i f l
  rw [h] at hget
  exact ⟨hi, hget.symm⟩

theorem cell_set_value_self (c : Cell) (v : Json) (h : c.value = v) :
    { c with value := v } = c := by
  cases c
  simp_all

theorem cell_set_fill_self (c : Cell) (o : Option String) (h : c.fill = o) :
    { c with fill := o } = c := by
  cases c
  simp_all

theorem map_id_of_mem {l : List α} {f : α → α} (h : ∀ x ∈ l, f x = x) :
    l.map f = l := by
  induction l with
  | nil => rfl
  | cons a l ih =>
    simp only [List.map_cons, h a (by simp)]
    rw [ih (fun x hx => h x (by simp [hx]))]

/-! ### Row-level update lemmas -/

theorem setValFn_getD_self (ci : Nat) (v : Json) (row : List Cell) :
    (setValFn ci v row).getD ci emptyCell =
      { row.getD ci emptyCell with value := v } :=
  padModify_getD_self ..

theorem setValFn_getD_ne (ci j : Nat) (v : Json) (row : List Cell) (h : j ≠ ci) :
    (setValFn ci v row).getD j emptyCell = row.getD j emptyCell :=
  padModify_getD_ne _ _ _ _ _ h

theorem setValFn_length (ci : Nat) (v : Json) (row : List Cell) :
    (setValFn ci v row).length = max row.length (ci + 1) :=
  padModify_length ..

theorem setValFn_value_self (ci : Nat) (v : Json) (row : List Cell) :
    ((setValFn ci v row).getD ci emptyCell).value = v := by
  rw [setValFn_getD_self]

theorem setValFn_fill (ci j : Nat) (v : Json) (row : List Cell) :
    ((setValFn ci v row).getD j emptyCell).fill = (row.getD j emptyCell).fill := by
  by_cases h : j = ci
  · subst h; rw [setValFn_getD_self]
  · rw [setValFn_getD_ne _ _ _ _ h]

theorem setValFn_noop (ci : Nat) (v : Json) (row : List Cell)
    (hlen : ci < row.length) (hv : (row.getD ci emptyCell).value = v) :
    setValFn ci v row = row :=
  padModify_noop _ _ _ _ hlen (cell_set_value_self _ _ hv)

theorem setValFn_value_ne (ci j : Nat) (v : Json) (row : List Cell) (h : j ≠ ci) :
    ((setValFn ci v row).getD j emptyCell).value = (row.getD j emptyCell).value := by
  rw [setValFn_getD_ne _ _ _ _ h]

/-! ### Fill-row lemmas -/

theorem padToRow_getD (n : Nat) (row : List Cell) (i : Nat) :
    (padToRow n row).getD i emptyCell = row.getD i emptyCell :=
  getD_append_replicate ..

theorem padToRow_length (n : Nat) (row : List Cell) :
    (padToRow n row).length = max n row.length := by
  simp [padToRow]
  omega

theorem mapFill_getD_value (col : String) (l : List Cell) :
    ∀ i, ((l.map (fun cell => { cell with fill := some col })).getD i emptyCell).value
      = (l.getD i emptyCell).value := by
  induction l with
  | nil => intro i; simp
  | cons a l ih =>
    intro i
    cases i with
    | zero => simp [List.getD_cons_zero]
    | succ i => simpa [List.getD_cons_succ] using ih i

theorem mapFill_getD_fill (col : String) (l : List Cell) :
    ∀ i, i < l.length →
      ((l.map (fun cell => { cell with fill := some col })).getD i emptyCell).fill
        = some col := by
  induction l with
  | nil => intro i h; simp at h
  | cons a l ih =>
    intro i h
    cases i with
    | zero => simp [List.getD_cons_zero]
    | succ i =>
      simp only [List.map_cons, List.getD_cons_succ]
      exact ih i (by simpa using h)

theorem fillAllFn_value (col : String) (row : List Cell) (i : Nat) :
    ((fillAllFn col row).getD i emptyCell).value = (row.getD i emptyCell).value := by
  unfold fillAllFn
  rw [mapFill_getD_value, padToRow_getD]

theorem fillAllFn_length (col : String) (row : List Cell) :
    (fillAllFn col row).length = max 13 row.length := by
  simp [fillAllFn, padToRow_length]

theorem fillAllFn_fill (col : String) (row : List Cell) (i : Nat)
    (h : i < max 13 row.length) :
    ((fillAllFn col row).getD i emptyCell).fill = some col := by
  unfold fillAllFn
  exact mapFill_getD_fill _ _ _ (by rw [padToRow_length]; omega)

theorem fillAllFn_mem_fill (col : String) (row : List Cell) (cell : Cell)
    (h : cell ∈ fillAllFn col row) : cell.fill = some col := by
  unfold fillAllFn at h
  obtain ⟨c, _, rfl⟩ := List.mem_map.mp h
  rfl

theorem fillAllFn_noop (col : String) (row : List Cell)
    (hlen : 13 ≤ row.length) (hfill : ∀ cell ∈ row, cell.fill = some col) :
    fillAllFn col row = row := by
  unfold fillAllFn padToRow
  rw [Nat.sub_eq_zero_of_le hlen, List.replicate_zero, List.append_nil]
  exact map_id_of_mem (fun cell hc => cell_set_fill_self _ _ (hfill cell hc))

/-! ### Sheet-level lemmas -/

theorem getRow_setCellValue_self (ws : Sheet) (r c : Nat) (v : Json) :
    getRow (setCellValue ws r c v) r = setValFn (c - 1) v (getRow ws r) :=
  padModify_getD_self ..

theorem getRow_setCellValue_ne (ws : Sheet) (r c r' : Nat) (v : Json)
    (hr : 1 ≤ r) (hr' : 1 ≤ r') (h : r' ≠ r) :
    getRow (setCellValue ws r c v) r' = getRow ws r' :=
  padModify_getD_ne _ _ _ _ _ (by omega)

theorem setCellValue_length (ws : Sheet) (r c : Nat) (v : Json) (hr : 1 ≤ r) :
    (setCellValue ws r c v).length = max ws.length r := by
  unfold setCellValue
  rw [padModify_length]
  omega

theorem getRow_fillRow_self (ws : Sheet) (r : Nat) (col : String) :
    getRow (fillRow ws r col) r = fillAllFn col (getRow ws r) :=
  padModify_getD_self ..

theorem getRow_fillRow_ne (ws : Sheet) (r r' : Nat) (col : String)
    (hr : 1 ≤ r) (hr' : 1 ≤ r') (h : r' ≠ r) :
    getRow (fillRow ws r col) r' = getRow ws r' :=
  padModify_getD_ne _ _ _ _ _ (by omega)

theorem fillRow_length (ws : Sheet) (r : Nat) (col : String) (hr : 1 ≤ r) :
    (fillRow ws r col).length = max ws.length r := by
  unfold fillRow
  rw [padModify_length]
  omega

theorem getCellValue_setCellValue_self (ws : Sheet) (r c : Nat) (v : Json) :
    getCellValue (setCellValue ws r c v) r c = v := by
  unfold getCellValue getCell
  rw [getRow_setCellValue_self, setValFn_getD_self]

theorem getCellValue_setCellValue_ne_col (ws : Sheet) (r c c' : Nat) (v : Json)
    (hc : 1 ≤ c) (hc' : 1 ≤ c') (h : c' ≠ c) :
    getCellValue (setCellValue ws r c v) r c' = getCellValue ws r c' := by
  unfold getCellValue getCell
  rw [getRow_setCellValue_self, setValFn_getD_ne _ _ _ _ (by omega)]

theorem setCellValue_noop (ws : Sheet) (r c : Nat) (v : Json)
    (hr : r - 1 < ws.length) (hc : c - 1 < (getRow ws r).length)
    (hv : getCellValue ws r c = v) :
    setCellValue ws r c v = ws :=
  padModify_noop _ _ _ _ hr (setValFn_noop _ _ _ hc hv)

theorem fillRow_noop (ws : Sheet) (r : Nat) (col : String)
    (hr : r - 1 < ws.length) (hlen : 13 ≤ (getRow ws r).length)
    (hfill : ∀ cell ∈ getRow ws r, cell.fill = some col) :
    fillRow ws r col = ws :=
  padModify_noop _ _ _ _ hr (fillAllFn_noop _ _ hlen hfill)

/-! ### Fetcher lemmas -/

theorem fetch_cached_aux (env : Env) (id : String) (st : St)
    (h : (st.cache.lookup id).isSome) :
    getCVEInfo env id st = { st with log := .alreadyCached id :: st.log } := by
  simp [getCVEInfo, h]

theorem fetch_allfail_aux (env : Env) (id : String) (st : St)
    (hnc : st.cache.lookup id = none)
    (hfail : ∀ n, env.net id n = .requestError) :
    getCVEInfo env id st =
      { st with
        requests := st.requests + 3, sleeps := st.sleeps + 2,
        log := .fetchGaveUp :: .requestFailed 3 :: .slept :: .requestFailed 2 ::
               .slept :: .requestFailed 1 :: .fetchStart id :: st.log } := by
  simp only [getCVEInfo, hnc, Option.isSome_none, Bool.false_eq_true, if_false,
    fetchLoop, hfail]
  norm_num

theorem runCoordinator_cached (env : Env) (ids : List String) :
    ∀ st : St, (∀ id ∈ ids, (st.cache.lookup id).isSome) →
      ∃ log', runCoordinator env ids st =
        { cache := st.cache, log := log',
          requests := st.requests, sleeps := st.sleeps } := by
  induction ids with
  | nil =>
    intro st _
    exact ⟨st.log, rfl⟩
  | cons id rest ih =>
    intro st h
    have hstep : getCVEInfo env id st = { st with log := .alreadyCached id :: st.log } :=
      fetch_cached_aux env id st (h id (by simp))
    have hrest := ih { st with log := .alreadyCached id :: st.log }
      (fun i hi => h i (by simp [hi]))
    obtain ⟨log', hlog⟩ := hrest
    refine ⟨log', ?_⟩
    simp only [runCoordinator, List.foldl_cons, hstep]
    exact hlog

/-! ### Verdict structure lemmas -/

theorem versionsAux_spec (d : Json) :
    ∀ (ps : List (String × String)) (s₀ : List (String × String))
      (w₀ : List (Nat × String)) (s : List (String × String)) (w : List (Nat × String)),
      versionsAux d ps (s₀, w₀) = .ok (s, w) →
      ∃ extra, w = w₀ ++ extra ∧
        List.Sublist (extra.map Prod.fst)
          (ps.flatMap (fun p => [colIndex (p.2 ++ "BS"), colIndex (p.2 ++ "Vector")])) ∧
        (extra = [] → s = s₀) := by
  intro ps
  induction ps with
  | nil =>
    intro s₀ w₀ s w h
    simp only [versionsAux, Except.ok.injEq, Prod.mk.injEq] at h
    exact ⟨[], by simp [h.1, h.2]⟩
  | cons p ps ih =>
    intro s₀ w₀ s w h
    cases hv : versionVal d p with
    | error e => rw [versionsAux, hv] at h; simp at h
    | ok o =>
      cases o with
      | none =>
        rw [versionsAux, hv] at h
        obtain ⟨extra, he, hs, hemp⟩ := ih s₀ w₀ s w h
        exact ⟨extra, he, hs.trans (List.sublist_append_right _ _), hemp⟩
      | some pair =>
        obtain ⟨bs, vec⟩ := pair
        rw [versionsAux, hv] at h
        obtain ⟨extra, he, hs, _⟩ := ih _ _ s w h
        refine ⟨[(colIndex (p.2 ++ "BS"), bs), (colIndex (p.2 ++ "Vector"), vec)] ++ extra,
          ?_, ?_, ?_⟩
        · rw [he, List.append_assoc]
        · simp only [List.map_append, List.map_cons, List.map_nil, List.flatMap_cons]
          exact ((hs.cons₂ _).cons₂ _).trans (by simp)
        · intro hcontra; simp at hcontra

theorem versionsVal_writes (d : Json) (s : List (String × String))
    (w : List (Nat × String)) (h : versionsVal d = .ok (s, w)) :
    (∀ p ∈ w, 6 ≤ p.1 ∧ p.1 ≤ 13) ∧ (w.map Prod.fst).Nodup ∧
      (w = [] → s = initScores) := by
  obtain ⟨extra, he, hs, hemp⟩ := versionsAux_spec d versionPairs initScores [] s w h
  simp only [List.nil_append] at he
  subst he
  have hbind : versionPairs.flatMap
      (fun p => [colIndex (p.2 ++ "BS"), colIndex (p.2 ++ "Vector")]) =
      [6, 7, 8, 9, 10, 11, 12, 13] := by decide
  rw [hbind] at hs
  refine ⟨?_, ?_, hemp⟩
  · intro p hp
    have hmem : p.1 ∈ [6, 7, 8, 9, 10, 11, 12, 13] :=
      hs.subset (List.mem_map_of_mem Prod.fst hp)
    simp only [List.mem_cons, List.not_mem_nil, or_false] at hmem
    omega
  · exact hs.nodup (by decide)

theorem rowVerdict_enrich_inv (j : Json) (cwe : Option Json)
    (writes : List (Nat × String)) (hl : Bool)
    (h : rowVerdict j = .ok (.enrich cwe writes hl)) :
    ∃ vul v0 cveInfo cvssDicts scores,
      j.dictGet "vulnerabilities" (.arr []) = .ok vul ∧ pyFalsy vul = false ∧
      vul.index 0 = .ok v0 ∧ v0.dictGet "cve" (.obj []) = .ok cveInfo ∧
      cveInfo.dictGet "metrics" (.obj []) = .ok cvssDicts ∧
      cweVal cveInfo = .ok cwe ∧ versionsVal cvssDicts = .ok (scores, writes) ∧
      hl = allNA scores := by
  unfold rowVerdict at h
  cases h1 : j.dictGet "vulnerabilities" (.arr []) with
  | error e => simp only [h1] at h; exact Except.noConfusion h
  | ok vul =>
    simp only [h1] at h
    by_cases h2 : pyFalsy vul = true
    · rw [if_pos h2] at h; simp at h
    · rw [if_neg h2] at h
      cases h3 : vul.index 0 with
      | error e => simp only [h3] at h; exact Except.noConfusion h
      | ok v0 =>
        simp only [h3] at h
        cases h4 : v0.dictGet "cve" (.obj []) with
        | error e => simp only [h4] at h; exact Except.noConfusion h
        | ok cveInfo =>
          simp only [h4] at h
          cases h5 : cveInfo.dictGet "metrics" (.obj []) with
          | error e => simp only [h5] at h; exact Except.noConfusion h
          | ok cvssDicts =>
            simp only [h5] at h
            cases h6 : cweVal cveInfo with
            | error e => simp only [h6] at h; exact Except.noConfusion h
            | ok cwe0 =>
              simp only [h6] at h
              cases h7 : versionsVal cvssDicts with
              | error e => simp only [h7] at h; exact Except.noConfusion h
              | ok sw =>
                obtain ⟨scores, ws0⟩ := sw
                simp only [h7, Except.ok.injEq, RowVerdict.enrich.injEq] at h
                obtain ⟨hc, hw, hhl⟩ := h
                subst hc; subst hw
                exact ⟨vul, v0, cveInfo, cvssDicts, scores, rfl,
                  by simpa using h2, h3, h4, h5, h6, h7, hhl.symm⟩

theorem rowVerdict_writes (j : Json) (cwe : Option Json)
    (writes : List (Nat × String)) (hl : Bool)
    (h : rowVerdict j = .ok (.enrich cwe writes hl)) :
    (∀ p ∈ writes, 6 ≤ p.1 ∧ p.1 ≤ 13) ∧ (writes.map Prod.fst).Nodup ∧
      (writes = [] → hl = true) := by
  obtain ⟨_, _, _, _, scores, _, _, _, _, _, _, h7, hhl⟩ := rowVerdict_enrich_inv j cwe writes hl h
  obtain ⟨hb, hnd, hemp⟩ := versionsVal_writes _ _ _ h7
  refine ⟨hb, hnd, ?_⟩
  intro hw
  rw [hhl, hemp hw]
  decide

/-! ### processRow branch lemmas -/

theorem processRow_missing (cache : Cache) (ws : Sheet) (log : List LogEvent) (r : Nat)
    (h : cache.lookup (rowKey ws r) = none) :
    processRow cache ws log r = .ok (ws, .cacheMissing (rowKey ws r) :: log) := by
  simp [processRow, h]

theorem processRow_unreadable (cache : Cache) (ws : Sheet) (log : List LogEvent) (r : Nat)
    (h : cache.lookup (rowKey ws r) = some .unreadable) :
    processRow cache ws log r = .error .ioError := by
  simp [processRow, h]

theorem processRow_unparseable (cache : Cache) (ws : Sheet) (log : List LogEvent) (r : Nat)
    (h : cache.lookup (rowKey ws r) = some .unparseable) :
    processRow cache ws log r = .error .jsonDecodeError := by
  simp [processRow, h]

theorem processRow_verdict_err (cache : Cache) (ws : Sheet) (log : List LogEvent)
    (r : Nat) (j : Json) (e : PyErr)
    (hlk : cache.lookup (rowKey ws r) = some (.parsed j))
    (hv : rowVerdict j = .error e) :
    processRow cache ws log r = .error e := by
  simp [processRow, hlk, hv]

theorem processRow_noVulns (cache : Cache) (ws : Sheet) (log : List LogEvent)
    (r : Nat) (j : Json)
    (hlk : cache.lookup (rowKey ws r) = some (.parsed j))
    (hv : rowVerdict j = .ok .noVulns) :
    processRow cache ws log r = .ok (ws, .noVulns (rowKey ws r) :: log) := by
  simp [processRow, hlk, hv]

theorem applyWrites_char (r : Nat) :
    ∀ (writes : List (Nat × String)) (ws : Sheet), writes ≠ [] →
      applyWrites ws r writes = padModify [] (r - 1) (writesRowFn writes) ws := by
  intro writes
  induction writes with
  | nil => intro ws h; exact absurd rfl h
  | cons p rest ih =>
    obtain ⟨c, s⟩ := p
    intro ws _
    by_cases hrest : rest = []
    · subst hrest
      show setCellValue ws r c (.str s) = _
      unfold setCellValue
      congr 1
    · show applyWrites (setCellValue ws r c (.str s)) r rest = _
      rw [ih (setCellValue ws r c (.str s)) hrest]
      unfold setCellValue
      rw [padModify_comp]
      congr 1

theorem enrich_sheet_char (ws : Sheet) (r : Nat) (cwe : Option Json)
    (writes : List (Nat × String)) (hl : Bool) (hne : writes = [] → hl = true) :
    (if hl then
        fillRow (applyWrites (match cwe with
          | none => ws
          | some v => setCellValue ws r 5 v) r writes) r grayFill
      else applyWrites (match cwe with
          | none => ws
          | some v => setCellValue ws r 5 v) r writes)
      = padModify [] (r - 1) (enrichRowFn cwe writes hl) ws := by
  cases hl with
  | false =>
    simp only [Bool.false_eq_true, if_false]
    cases writes with
    | nil => exact absurd (hne rfl) (by simp)
    | cons w0 wrest =>
      rw [applyWrites_char r (w0 :: wrest) _ (by simp)]
      cases cwe with
      | none =>
        congr 1
      | some v =>
        show padModify [] (r - 1) (writesRowFn (w0 :: wrest))
            (padModify [] (r - 1) (setValFn (5 - 1) v) ws) = _
        rw [padModify_comp]
        congr 1
  | true =>
    simp only [if_true]
    cases writes with
    | nil =>
      cases cwe with
      | none =>
        show fillRow ws r grayFill = _
        unfold fillRow
        congr 1
      | some v =>
        show fillRow (setCellValue ws r 5 v) r grayFill = _
        unfold fillRow setCellValue
        rw [padModify_comp]
        congr 1
    | cons w0 wrest =>
      cases cwe with
      | none =>
        rw [applyWrites_char r (w0 :: wrest) _ (by simp)]
        unfold fillRow
        rw [padModify_comp]
        congr 1
      | some v =>
        rw [applyWrites_char r (w0 :: wrest) _ (by simp)]
        show fillRow (padModify [] (r - 1) (writesRowFn (w0 :: wrest))
            (padModify [] (r - 1) (setValFn (5 - 1) v) ws)) r grayFill = _
        unfold fillRow
        rw [padModify_comp, padModify_comp]
        congr 1

theorem processRow_enrich_char (cache : Cache) (ws : Sheet) (log : List LogEvent)
    (r : Nat) (j : Json) (cwe : Option Json) (writes : List (Nat × String)) (hl : Bool)
    (hlk : cache.lookup (rowKey ws r) = some (.parsed j))
    (hv : rowVerdict j = .ok (.enrich cwe writes hl)) :
    processRow cache ws log r =
      .ok (padModify [] (r - 1) (enrichRowFn cwe writes hl) ws,
        (if hl then LogEvent.noScores (rowKey ws r)
         else LogEvent.scoresInfo (rowKey ws r)) :: log) := by
  have hne : writes = [] → hl = true := (rowVerdict_writes j cwe writes hl hv).2.2
  have hs := enrich_sheet_char ws r cwe writes hl hne
  simp only [processRow, hlk, hv]
  cases hl with
  | false =>
    simp only [Bool.false_eq_true, if_false] at hs ⊢
    rw [hs]
  | true =>
    simp only [if_true] at hs ⊢
    rw [hs]

/-! ### Row-function frame lemmas -/

theorem writesRowFn_getD_ne (ci : Nat) :
    ∀ (writes : List (Nat × String)) (row : List Cell),
      (∀ p ∈ writes, p.1 - 1 ≠ ci) →
      (writesRowFn writes row).getD ci emptyCell = row.getD ci emptyCell := by
  intro writes
  induction writes with
  | nil => intro row _; rfl
  | cons p rest ih =>
    obtain ⟨c, s⟩ := p
    intro row hne
    show (writesRowFn rest (setValFn (c - 1) (.str s) row)).getD ci emptyCell = _
    rw [ih _ (fun q hq => hne q (by simp [hq])),
      setValFn_getD_ne _ _ _ _ (fun hh => hne (c, s) (by simp) (by omega))]

theorem writesRowFn_length_mono :
    ∀ (writes : List (Nat × String)) (row : List Cell),
      row.length ≤ (writesRowFn writes row).length := by
  intro writes
  induction writes with
  | nil => intro row; exact Nat.le_refl _
  | cons p rest ih =>
    obtain ⟨c, s⟩ := p
    intro row
    calc row.length ≤ (setValFn (c - 1) (.str s) row).length := by
          rw [setValFn_length]; omega
      _ ≤ _ := ih _

theorem cweRowFn_getD_ne (cwe : Option Json) (row : List Cell) (ci : Nat) (h : ci ≠ 4) :
    (cweRowFn cwe row).getD ci emptyCell = row.getD ci emptyCell := by
  cases cwe with
  | none => rfl
  | some v => exact setValFn_getD_ne _ _ _ _ h

theorem cweRowFn_length_mono (cwe : Option Json) (row : List Cell) :
    row.length ≤ (cweRowFn cwe row).length := by
  cases cwe with
  | none => exact Nat.le_refl _
  | some v => rw [cweRowFn, setValFn_length]; omega

theorem enrichRowFn_value_low (cwe : Option Json) (writes : List (Nat × String))
    (hl : Bool) (row : List Cell) (ci : Nat)
    (hw : ∀ p ∈ writes, 6 ≤ p.1 ∧ p.1 ≤ 13) (hci : ci ≤ 3 ∨ 13 ≤ ci) :
    ((enrichRowFn cwe writes hl row).getD ci emptyCell).value
      = (row.getD ci emptyCell).value := by
  have hwne : ∀ p ∈ writes, p.1 - 1 ≠ ci := by
    intro p hp
    have := hw p hp
    omega
  have hbase : ((writesRowFn writes (cweRowFn cwe row)).getD ci emptyCell).value
      = (row.getD ci emptyCell).value := by
    rw [writesRowFn_getD_ne _ _ _ hwne, cweRowFn_getD_ne _ _ _ (by omega)]
  unfold enrichRowFn
  cases hl with
  | false => simpa using hbase
  | true =>
    rw [if_pos rfl, fillAllFn_value]
    exact hbase

theorem enrichRowFn_length_mono (cwe : Option Json) (writes : List (Nat × String))
    (hl : Bool) (row : List Cell) :
    row.length ≤ (enrichRowFn cwe writes hl row).length := by
  have h1 := cweRowFn_length_mono cwe row
  have h2 := writesRowFn_length_mono writes (cweRowFn cwe row)
  unfold enrichRowFn
  cases hl with
  | false => simp; omega
  | true => rw [if_pos rfl, fillAllFn_length]; omega

/-! ### processRow frame lemmas -/

theorem processRow_ok_inv (cache : Cache) (ws : Sheet) (log : List LogEvent)
    (r : Nat) (ws' : Sheet) (log' : List LogEvent)
    (h : processRow cache ws log r = .ok (ws', log')) :
    ws' = ws ∨ ∃ j cwe writes hl, cache.lookup (rowKey ws r) = some (.parsed j) ∧
      rowVerdict j = .ok (.enrich cwe writes hl) ∧
      ws' = padModify [] (r - 1) (enrichRowFn cwe writes hl) ws := by
  cases hc : cache.lookup (rowKey ws r) with
  | none =>
    rw [processRow_missing cache ws log r hc] at h
    simp only [Except.ok.injEq, Prod.mk.injEq] at h
    exact Or.inl h.1.symm
  | some f =>
    cases f with
    | unreadable =>
      rw [processRow_unreadable cache ws log r hc] at h
      exact Except.noConfusion h
    | unparseable =>
      rw [processRow_unparseable cache ws log r hc] at h
      exact Except.noConfusion h
    | parsed j =>
      cases hv : rowVerdict j with
      | error e =>
        rw [processRow_verdict_err cache ws log r j e hc hv] at h
        exact Except.noConfusion h
      | ok verdict =>
        cases verdict with
        | noVulns =>
          rw [processRow_noVulns cache ws log r j hc hv] at h
          simp only [Except.ok.injEq, Prod.mk.injEq] at h
          exact Or.inl h.1.symm
        | enrich cwe writes hl =>
          rw [processRow_enrich_char cache ws log r j cwe writes hl hc hv] at h
          simp only [Except.ok.injEq, Prod.mk.injEq] at h
          exact Or.inr ⟨j, cwe, writes, hl, rfl, hv, h.1.symm⟩

theorem processRow_getRow_ne (cache : Cache) (ws : Sheet) (log : List LogEvent)
    (r : Nat) (ws' : Sheet) (log' : List LogEvent) (r' : Nat)
    (hr : 1 ≤ r) (hr' : 1 ≤ r') (hne : r' ≠ r)
    (h : processRow cache ws log r = .ok (ws', log')) :
    getRow ws' r' = getRow ws r' := by
  rcases processRow_ok_inv cache ws log r ws' log' h with rfl | ⟨j, cwe, writes, hl, _, _, rfl⟩
  · rfl
  · exact padModify_getD_ne _ _ _ _ _ (by omega)

theorem processRow_length_mono (cache : Cache) (ws : Sheet) (log : List LogEvent)
    (r : Nat) (ws' : Sheet) (log' : List LogEvent)
    (h : processRow cache ws log r = .ok (ws', log')) :
    ws.length ≤ ws'.length := by
  rcases processRow_ok_inv cache ws log r ws' log' h with rfl | ⟨j, cwe, writes, hl, _, _, rfl⟩
  · exact Nat.le_refl _
  · rw [padModify_length]; exact Nat.le_max_left _ _

theorem processRow_length_eq (cache : Cache) (ws : Sheet) (log : List LogEvent)
    (r : Nat) (ws' : Sheet) (log' : List LogEvent) (hr : 1 ≤ r) (hrle : r ≤ ws.length)
    (h : processRow cache ws log r = .ok (ws', log')) :
    ws'.length = ws.length := by
  rcases processRow_ok_inv cache ws log r ws' log' h with rfl | ⟨j, cwe, writes, hl, _, _, rfl⟩
  · rfl
  · rw [padModify_length]
    exact Nat.max_eq_left (show r - 1 + 1 ≤ ws.length by omega)

theorem processRow_lowcol (cache : Cache) (ws : Sheet) (log : List LogEvent)
    (r : Nat) (ws' : Sheet) (log' : List LogEvent) (r' c : Nat)
    (hr : 1 ≤ r) (hr' : 1 ≤ r') (hc : 1 ≤ c) (hcol : c ≤ 4 ∨ 14 ≤ c)
    (h : processRow cache ws log r = .ok (ws', log')) :
    getCellValue ws' r' c = getCellValue ws r' c := by
  rcases processRow_ok_inv cache ws log r ws' log' h with rfl | ⟨j, cwe, writes, hl, hlk, hv, rfl⟩
  · rfl
  · by_cases hrr : r' = r
    · subst hrr
      have hw := (rowVerdict_writes j cwe writes hl hv).1
      unfold getCellValue getCell getRow
      rw [padModify_getD_self]
      exact enrichRowFn_value_low cwe writes hl _ _ hw (by omega)
    · unfold getCellValue getCell getRow
      rw [padModify_getD_ne _ _ _ _ _ (by omega)]

theorem processRow_rowlen_mono (cache : Cache) (ws : Sheet) (log : List LogEvent)
    (r : Nat) (ws' : Sheet) (log' : List LogEvent) (r' : Nat)
    (hr : 1 ≤ r) (hr' : 1 ≤ r')
    (h : processRow cache ws log r = .ok (ws', log')) :
    (getRow ws r').length ≤ (getRow ws' r').length := by
  rcases processRow_ok_inv cache ws log r ws' log' h with rfl | ⟨j, cwe, writes, hl, _, _, rfl⟩
  · exact Nat.le_refl _
  · by_cases hrr : r' = r
    · subst hrr
      unfold getRow
      rw [padModify_getD_self]
      exact enrichRowFn_length_mono ..
    · unfold getRow
      rw [padModify_getD_ne _ _ _ _ _ (by omega)]

theorem processRow_rowKey (cache : Cache) (ws : Sheet) (log : List LogEvent)
    (r : Nat) (ws' : Sheet) (log' : List LogEvent) (r' : Nat)
    (hr : 1 ≤ r) (hr' : 1 ≤ r')
    (h : processRow cache ws log r = .ok (ws', log')) :
    rowKey ws' r' = rowKey ws r' := by
  unfold rowKey
  rw [processRow_lowcol cache ws log r ws' log' r' 4 hr hr' (by omega) (by omega) h]

/-! ### Row-level idempotence -/

theorem padModify_congr_point (d : α) (i : Nat) (f g : α → α) (l : List α)
    (h : f (l.getD i d) = g (l.getD i d)) : padModify d i f l = padModify d i g l := by
  unfold padModify
  rw [h]

theorem writesRowFn_establish :
    ∀ (writes : List (Nat × String)) (row : List Cell),
      (writes.map Prod.fst).Nodup → (∀ p ∈ writes, 1 ≤ p.1) →
      ∀ p ∈ writes, p.1 - 1 < (writesRowFn writes row).length ∧
        ((writesRowFn writes row).getD (p.1 - 1) emptyCell).value = .str p.2 := by
  intro writes
  induction writes with
  | nil => intro row _ _ p hp; simp at hp
  | cons q rest ih =>
    obtain ⟨c, s⟩ := q
    intro row hnd hpos p hp
    have hndrest : (rest.map Prod.fst).Nodup := by
      simpa using hnd.of_cons
    have hcnotin : c ∉ rest.map Prod.fst := by
      have := hnd
      simp only [List.map_cons, List.nodup_cons] at this
      exact this.1
    rcases List.mem_cons.mp hp with heq | hprest
    · subst heq
      constructor
      · calc c - 1 < (setValFn (c - 1) (.str s) row).length := by
              rw [setValFn_length]; omega
          _ ≤ _ := writesRowFn_length_mono ..
      · show ((writesRowFn rest (setValFn (c - 1) (.str s) row)).getD
            (c - 1) emptyCell).value = .str s
        rw [writesRowFn_getD_ne]
        · exact setValFn_value_self ..
        · intro q hq hcontra
          have hq1 : 1 ≤ q.1 := hpos q (by simp [hq])
          have hc1 : 1 ≤ c := hpos (c, s) (by simp)
          have heqc : q.1 = c := by omega
          exact hcnotin (heqc ▸ List.mem_map_of_mem Prod.fst hq)
    · exact ih (setValFn (c - 1) (.str s) row) hndrest
        (fun q hq => hpos q (by simp [hq])) p hprest

theorem writesRowFn_noop :
    ∀ (writes : List (Nat × String)) (row : List Cell),
      (∀ p ∈ writes, p.1 - 1 < row.length ∧
        (row.getD (p.1 - 1) emptyCell).value = .str p.2) →
      writesRowFn writes row = row := by
  intro writes
  induction writes with
  | nil => intro row _; rfl
  | cons q rest ih =>
    obtain ⟨c, s⟩ := q
    intro row hcond
    have hhead := hcond (c, s) (by simp)
    show writesRowFn rest (setValFn (c - 1) (.str s) row) = row
    rw [setValFn_noop _ _ _ hhead.1 hhead.2]
    exact ih row (fun p hp => hcond p (by simp [hp]))

theorem enrichRowFn_idem (cwe : Option Json) (writes : List (Nat × String))
    (hl : Bool) (row : List Cell)
    (hw : ∀ p ∈ writes, 6 ≤ p.1 ∧ p.1 ≤ 13) (hnd : (writes.map Prod.fst).Nodup) :
    enrichRowFn cwe writes hl (enrichRowFn cwe writes hl row)
      = enrichRowFn cwe writes hl row := by
  have hpos : ∀ p ∈ writes, 1 ≤ p.1 := fun p hp => by have := hw p hp; omega
  have hidxne : ∀ p ∈ writes, p.1 - 1 ≠ 4 := fun p hp => by have := hw p hp; omega
  -- facts about the once-transformed row
  set mid := writesRowFn writes (cweRowFn cwe row) with hmid
  have hrho : enrichRowFn cwe writes hl row = if hl then fillAllFn grayFill mid else mid := rfl
  -- value and length facts transfer from `mid` to the final row
  have hval : ∀ i, ((enrichRowFn cwe writes hl row).getD i emptyCell).value
      = (mid.getD i emptyCell).value := by
    intro i
    rw [hrho]
    cases hl with
    | false => simp
    | true => rw [if_pos rfl, fillAllFn_value]
  have hlen : mid.length ≤ (enrichRowFn cwe writes hl row).length := by
    rw [hrho]
    cases hl with
    | false => simp
    | true => rw [if_pos rfl, fillAllFn_length]; omega
  -- 1. the CWE write is a no-op on the transformed row
  have hcwe : cweRowFn cwe (enrichRowFn cwe writes hl row) = enrichRowFn cwe writes hl row := by
    cases cwe with
    | none => rfl
    | some v =>
      apply setValFn_noop
      · calc (4 : Nat) < (cweRowFn (some v) row).length := by
              show 4 < (setValFn 4 v row).length
              rw [setValFn_length]; omega
          _ ≤ mid.length := writesRowFn_length_mono ..
          _ ≤ _ := hlen
      · rw [hval 4, writesRowFn_getD_ne _ _ _ hidxne]
        exact setValFn_value_self ..
  -- 2. the score/vector writes are no-ops on the transformed row
  have hwr : writesRowFn writes (enrichRowFn cwe writes hl row)
      = enrichRowFn cwe writes hl row := by
    apply writesRowFn_noop
    intro p hp
    have hest := writesRowFn_establish writes (cweRowFn cwe row) hnd hpos p hp
    rw [← hmid] at hest
    exact ⟨by omega, by rw [hval]; exact hest.2⟩
  -- 3. the fill is a no-op on the transformed row
  show (if hl then fillAllFn grayFill (writesRowFn writes
      (cweRowFn cwe (enrichRowFn cwe writes hl row))) else _) = _
  rw [hcwe, hwr]
  cases hl with
  | false => simp
  | true =>
    rw [if_pos rfl]
    apply fillAllFn_noop
    · rw [hrho, if_pos rfl, fillAllFn_length]; omega
    · intro cell hcell
      rw [hrho, if_pos rfl] at hcell
      exact fillAllFn_mem_fill _ _ _ hcell

/-! ### Fixpoint lemmas for row processing -/

theorem processRow_ok_anyLog (cache : Cache) (ws : Sheet) (log : List LogEvent)
    (r : Nat) (w : Sheet) (l : List LogEvent)
    (h : processRow cache ws log r = .ok (w, l)) :
    ∀ log₂, ∃ l₂, processRow cache ws log₂ r = .ok (w, l₂) := by
  intro log₂
  cases hc : cache.lookup (rowKey ws r) with
  | none =>
    rw [processRow_missing cache ws log r hc] at h
    simp only [Except.ok.injEq, Prod.mk.injEq] at h
    exact ⟨_, by rw [processRow_missing cache ws log₂ r hc, h.1]⟩
  | some f =>
    cases f with
    | unreadable =>
      rw [processRow_unreadable cache ws log r hc] at h
      exact Except.noConfusion h
    | unparseable =>
      rw [processRow_unparseable cache ws log r hc] at h
      exact Except.noConfusion h
    | parsed j =>
      cases hv : rowVerdict j with
      | error e =>
        rw [processRow_verdict_err cache ws log r j e hc hv] at h
        exact Except.noConfusion h
      | ok verdict =>
        cases verdict with
        | noVulns =>
          rw [processRow_noVulns cache ws log r j hc hv] at h
          simp only [Except.ok.injEq, Prod.mk.injEq] at h
          exact ⟨_, by rw [processRow_noVulns cache ws log₂ r j hc hv, h.1]⟩
        | enrich cwe writes hl =>
          rw [processRow_enrich_char cache ws log r j cwe writes hl hc hv] at h
          simp only [Except.ok.injEq, Prod.mk.injEq] at h
          exact ⟨_, by rw [processRow_enrich_char cache ws log₂ r j cwe writes hl hc hv, h.1]⟩

theorem processRow_err_stable (cache : Cache) (ws ws' : Sheet)
    (log log₂ : List LogEvent) (r : Nat) (e : PyErr)
    (hkey : rowKey ws' r = rowKey ws r)
    (h : processRow cache ws log r = .error e) :
    processRow cache ws' log₂ r = .error e := by
  cases hc : cache.lookup (rowKey ws r) with
  | none =>
    rw [processRow_missing cache ws log r hc] at h
    exact Except.noConfusion h
  | some f =>
    cases f with
    | unreadable =>
      rw [processRow_unreadable cache ws log r hc] at h
      injection h with h1
      subst h1
      exact processRow_unreadable cache ws' log₂ r (by rw [hkey]; exact hc)
    | unparseable =>
      rw [processRow_unparseable cache ws log r hc] at h
      injection h with h1
      subst h1
      exact processRow_unparseable cache ws' log₂ r (by rw [hkey]; exact hc)
    | parsed j =>
      cases hv : rowVerdict j with
      | error e' =>
        rw [processRow_verdict_err cache ws log r j e' hc hv] at h
        injection h with h1
        subst h1
        exact processRow_verdict_err cache ws' log₂ r j e' (by rw [hkey]; exact hc) hv
      | ok verdict =>
        cases verdict with
        | noVulns =>
          rw [processRow_noVulns cache ws log r j hc hv] at h
          exact Except.noConfusion h
        | enrich cwe writes hl =>
          rw [processRow_enrich_char cache ws log r j cwe writes hl hc hv] at h
          exact Except.noConfusion h

theorem rowFixed_of_processRow (cache : Cache) (ws : Sheet) (log : List LogEvent)
    (r : Nat) (ws' : Sheet) (log' : List LogEvent) (hr : 1 ≤ r)
    (h : processRow cache ws log r = .ok (ws', log')) : RowFixed cache r ws' := by
  rcases hinv : processRow_ok_inv cache ws log r ws' log' h with _ | _
  case inl heq =>
    subst heq
    intro log₂
    exact processRow_ok_anyLog cache ws' log r ws' log' h log₂
  case inr hex =>
    obtain ⟨j, cwe, writes, hl, hlk, hv, heq⟩ := hex
    have hkey : rowKey ws' r = rowKey ws r :=
      processRow_rowKey cache ws log r ws' log' r hr hr h
    obtain ⟨hw, hnd, _⟩ := rowVerdict_writes j cwe writes hl hv
    intro log₂
    have hchar := processRow_enrich_char cache ws' log₂ r j cwe writes hl
      (by rw [hkey]; exact hlk) hv
    have hsame : padModify [] (r - 1) (enrichRowFn cwe writes hl) ws' = ws' := by
      rw [heq, padModify_comp]
      exact padModify_congr_point _ _ _ _ _
        (enrichRowFn_idem cwe writes hl _ hw hnd)
    rw [hsame] at hchar
    exact ⟨_, hchar⟩

theorem rowFixed_transfer (cache : Cache) (r : Nat) (ws ws' : Sheet)
    (hrow : getRow ws' r = getRow ws r) (hlen : ws.length ≤ ws'.length)
    (hfix : RowFixed cache r ws) : RowFixed cache r ws' := by
  have hkey : rowKey ws' r = rowKey ws r := by
    unfold rowKey getCellValue getCell
    rw [hrow]
  intro log
  cases hc : cache.lookup (rowKey ws r) with
  | none =>
    exact ⟨_, processRow_missing cache ws' log r (by rw [hkey]; exact hc)⟩
  | some f =>
    cases f with
    | unreadable =>
      obtain ⟨l', hl'⟩ := hfix log
      rw [processRow_unreadable cache ws log r hc] at hl'
      exact Except.noConfusion hl'
    | unparseable =>
      obtain ⟨l', hl'⟩ := hfix log
      rw [processRow_unparseable cache ws log r hc] at hl'
      exact Except.noConfusion hl'
    | parsed j =>
      cases hv : rowVerdict j with
      | error e =>
        obtain ⟨l', hl'⟩ := hfix log
        rw [processRow_verdict_err cache ws log r j e hc hv] at hl'
        exact Except.noConfusion hl'
      | ok verdict =>
        cases verdict with
        | noVulns =>
          exact ⟨_, processRow_noVulns cache ws' log r j (by rw [hkey]; exact hc) hv⟩
        | enrich cwe writes hl =>
          obtain ⟨l', hl'⟩ := hfix log
          rw [processRow_enrich_char cache ws log r j cwe writes hl hc hv] at hl'
          simp only [Except.ok.injEq, Prod.mk.injEq] at hl'
          have hcond := padModify_eq_self _ _ _ _ hl'.1
          have hrow' : ws'.getD (r - 1) [] = ws.getD (r - 1) [] := hrow
          have hchar := processRow_enrich_char cache ws' log r j cwe writes hl
            (by rw [hkey]; exact hc) hv
          have hnoop : padModify [] (r - 1) (enrichRowFn cwe writes hl) ws' = ws' := by
            apply padModify_noop
            · omega
            · rw [hrow']
              exact hcond.2
          rw [hnoop] at hchar
          exact ⟨_, hchar⟩

theorem rowFixed_preserved (cache : Cache) (ws : Sheet) (log : List LogEvent)
    (r r₂ : Nat) (ws' : Sheet) (log' : List LogEvent) (hr : 1 ≤ r) (hr₂ : 1 ≤ r₂)
    (hfix : RowFixed cache r ws)
    (h : processRow cache ws log r₂ = .ok (ws', log')) : RowFixed cache r ws' := by
  by_cases heq : r₂ = r
  · subst heq
    exact rowFixed_of_processRow cache ws log r₂ ws' log' hr₂ h
  · exact rowFixed_transfer cache r ws ws'
      (processRow_getRow_ne cache ws log r₂ ws' log' r hr₂ hr (fun hh => heq hh.symm) h)
      (processRow_length_mono cache ws log r₂ ws' log' h) hfix

/-! ### Row-loop lemmas -/

theorem updateRows_sheetOut_log (cache : Cache) :
    ∀ (rows : List Nat) (ws : Sheet) (log₁ log₂ : List LogEvent),
      (updateRows cache ws log₁ rows).sheetOut
        = (updateRows cache ws log₂ rows).sheetOut := by
  intro rows
  induction rows with
  | nil => intro ws log₁ log₂; rfl
  | cons r rest ih =>
    intro ws log₁ log₂
    cases h : processRow cache ws log₁ r with
    | ok p =>
      obtain ⟨w, l⟩ := p
      obtain ⟨l₂, h₂⟩ := processRow_ok_anyLog cache ws log₁ r w l h log₂
      simp only [updateRows, h, h₂]
      exact ih w l l₂
    | error e =>
      have h₂ := processRow_err_stable cache ws ws log₁ log₂ r e rfl h
      cases e with
      | jsonDecodeError => simp only [updateRows, h, h₂]; exact ih ws _ _
      | ioError => simp only [updateRows, h, h₂]; exact ih ws _ _
      | keyError => simp only [updateRows, h, h₂]; rfl
      | indexError => simp only [updateRows, h, h₂]; rfl
      | typeError => simp only [updateRows, h, h₂]; rfl
      | attributeError => simp only [updateRows, h, h₂]; rfl

theorem updateRows_fixed (cache : Cache) :
    ∀ (rows : List Nat) (ws : Sheet) (log : List LogEvent) (ws₁ : Sheet)
      (log₁ : List LogEvent) (r : Nat), 1 ≤ r → (∀ x ∈ rows, 1 ≤ x) →
      updateRows cache ws log rows = .ok ws₁ log₁ →
      RowFixed cache r ws → RowFixed cache r ws₁ := by
  intro rows
  induction rows with
  | nil =>
    intro ws log ws₁ log₁ r _ _ h hfix
    injection h with h1 h2
    subst h1
    exact hfix
  | cons x rest ih =>
    intro ws log ws₁ log₁ r hr hall h hfix
    have hx1 : 1 ≤ x := hall x (by simp)
    have hrest : ∀ y ∈ rest, 1 ≤ y := fun y hy => hall y (by simp [hy])
    cases hx : processRow cache ws log x with
    | ok p =>
      obtain ⟨w, l⟩ := p
      simp only [updateRows, hx] at h
      exact ih w l ws₁ log₁ r hr hrest h
        (rowFixed_preserved cache ws log r x w l hr hx1 hfix hx)
    | error e =>
      cases e with
      | jsonDecodeError =>
        simp only [updateRows, hx] at h
        exact ih ws _ ws₁ log₁ r hr hrest h hfix
      | ioError =>
        simp only [updateRows, hx] at h
        exact ih ws _ ws₁ log₁ r hr hrest h hfix
      | keyError => simp only [updateRows, hx] at h; exact absurd h (by simp)
      | indexError => simp only [updateRows, hx] at h; exact absurd h (by simp)
      | typeError => simp only [updateRows, hx] at h; exact absurd h (by simp)
      | attributeError => simp only [updateRows, hx] at h; exact absurd h (by simp)

theorem updateRows_lowcol (cache : Cache) :
    ∀ (rows : List Nat) (ws : Sheet) (log : List LogEvent) (ws₁ : Sheet)
      (log₁ : List LogEvent), (∀ x ∈ rows, 1 ≤ x) →
      updateRows cache ws log rows = .ok ws₁ log₁ →
      ∀ r c, 1 ≤ r → 1 ≤ c → (c ≤ 4 ∨ 14 ≤ c) →
      getCellValue ws₁ r c = getCellValue ws r c := by
  intro rows
  induction rows with
  | nil =>
    intro ws log ws₁ log₁ _ h r c _ _ _
    injection h with h1 h2
    subst h1
    rfl
  | cons x rest ih =>
    intro ws log ws₁ log₁ hall h r c hr hc hcol
    have hx1 : 1 ≤ x := hall x (by simp)
    have hrest : ∀ y ∈ rest, 1 ≤ y := fun y hy => hall y (by simp [hy])
    cases hx : processRow cache ws log x with
    | ok p =>
      obtain ⟨w, l⟩ := p
      simp only [updateRows, hx] at h
      rw [ih w l ws₁ log₁ hrest h r c hr hc hcol]
      exact processRow_lowcol cache ws log x w l r c hx1 hr hc hcol hx
    | error e =>
      cases e with
      | jsonDecodeError =>
        simp only [updateRows, hx] at h
        exact ih ws _ ws₁ log₁ hrest h r c hr hc hcol
      | ioError =>
        simp only [updateRows, hx] at h
        exact ih ws _ ws₁ log₁ hrest h r c hr hc hcol
      | keyError => simp only [updateRows, hx] at h; exact absurd h (by simp)
      | indexError => simp only [updateRows, hx] at h; exact absurd h (by simp)
      | typeError => simp only [updateRows, hx] at h; exact absurd h (by simp)
      | attributeError => simp only [updateRows, hx] at h; exact absurd h (by simp)

theorem updateRows_length (cache : Cache) :
    ∀ (rows : List Nat) (ws : Sheet) (log : List LogEvent) (ws₁ : Sheet)
      (log₁ : List LogEvent), (∀ x ∈ rows, 1 ≤ x ∧ x ≤ ws.length) →
      updateRows cache ws log rows = .ok ws₁ log₁ →
      ws₁.length = ws.length := by
  intro rows
  induction rows with
  | nil =>
    intro ws log ws₁ log₁ _ h
    injection h with h1 h2
    subst h1
    rfl
  | cons x rest ih =>
    intro ws log ws₁ log₁ hall h
    have hx1 := hall x (by simp)
    cases hx : processRow cache ws log x with
    | ok p =>
      obtain ⟨w, l⟩ := p
      simp only [updateRows, hx] at h
      have hlen := processRow_length_eq cache ws log x w l hx1.1 hx1.2 hx
      rw [ih w l ws₁ log₁ (fun y hy => by
        have := hall y (by simp [hy])
        omega) h]
      exact hlen
    | error e =>
      cases e with
      | jsonDecodeError =>
        simp only [updateRows, hx] at h
        exact ih ws _ ws₁ log₁ (fun y hy => hall y (by simp [hy])) h
      | ioError =>
        simp only [updateRows, hx] at h
        exact ih ws _ ws₁ log₁ (fun y hy => hall y (by simp [hy])) h
      | keyError => simp only [updateRows, hx] at h; exact absurd h (by simp)
      | indexError => simp only [updateRows, hx] at h; exact absurd h (by simp)
      | typeError => simp only [updateRows, hx] at h; exact absurd h (by simp)
      | attributeError => simp only [updateRows, hx] at h; exact absurd h (by simp)

theorem updateRows_rowlen_mono (cache : Cache) :
    ∀ (rows : List Nat) (ws : Sheet) (log : List LogEvent) (ws₁ : Sheet)
      (log₁ : List LogEvent), (∀ x ∈ rows, 1 ≤ x) →
      updateRows cache ws log rows = .ok ws₁ log₁ →
      ∀ r, 1 ≤ r → (getRow ws r).length ≤ (getRow ws₁ r).length := by
  intro rows
  induction rows with
  | nil =>
    intro ws log ws₁ log₁ _ h r _
    injection h with h1 h2
    subst h1
    exact Nat.le_refl _
  | cons x rest ih =>
    intro ws log ws₁ log₁ hall h r hr
    have hx1 : 1 ≤ x := hall x (by simp)
    have hrest : ∀ y ∈ rest, 1 ≤ y := fun y hy => hall y (by simp [hy])
    cases hx : processRow cache ws log x with
    | ok p =>
      obtain ⟨w, l⟩ := p
      simp only [updateRows, hx] at h
      calc (getRow ws r).length
          ≤ (getRow w r).length :=
            processRow_rowlen_mono cache ws log x w l r hx1 hr hx
        _ ≤ _ := ih w l ws₁ log₁ hrest h r hr
    | error e =>
      cases e with
      | jsonDecodeError =>
        simp only [updateRows, hx] at h
        exact ih ws _ ws₁ log₁ hrest h r hr
      | ioError =>
        simp only [updateRows, hx] at h
        exact ih ws _ ws₁ log₁ hrest h r hr
      | keyError => simp only [updateRows, hx] at h; exact absurd h (by simp)
      | indexError => simp only [updateRows, hx] at h; exact absurd h (by simp)
      | typeError => simp only [updateRows, hx] at h; exact absurd h (by simp)
      | attributeError => simp only [updateRows, hx] at h; exact absurd h (by simp)

theorem updateRows_idem (cache : Cache) :
    ∀ (rows : List Nat) (ws : Sheet) (log : List LogEvent) (ws₁ : Sheet)
      (log₁ : List LogEvent), (∀ x ∈ rows, 1 ≤ x) →
      updateRows cache ws log rows = .ok ws₁ log₁ →
      ∀ log₂, ∃ log₃, updateRows cache ws₁ log₂ rows = .ok ws₁ log₃ := by
  intro rows
  induction rows with
  | nil =>
    intro ws log ws₁ log₁ _ h log₂
    injection h with h1 h2
    subst h1
    exact ⟨log₂, rfl⟩
  | cons x rest ih =>
    intro ws log ws₁ log₁ hall h log₂
    have hx1 : 1 ≤ x := hall x (by simp)
    have hrest : ∀ y ∈ rest, 1 ≤ y := fun y hy => hall y (by simp [hy])
    cases hx : processRow cache ws log x with
    | ok p =>
      obtain ⟨w, l⟩ := p
      simp only [updateRows, hx] at h
      have hfix : RowFixed cache x ws₁ :=
        updateRows_fixed cache rest w l ws₁ log₁ x hx1 hrest h
          (rowFixed_of_processRow cache ws log x w l hx1 hx)
      obtain ⟨l₃, h₃⟩ := hfix log₂
      obtain ⟨log₄, h₄⟩ := ih w l ws₁ log₁ hrest h l₃
      exact ⟨log₄, by simp only [updateRows, h₃]; exact h₄⟩
    | error e =>
      cases e with
      | jsonDecodeError =>
        simp only [updateRows, hx] at h
        have hkey : rowKey ws₁ x = rowKey ws x := by
          unfold rowKey
          rw [updateRows_lowcol cache rest ws _ ws₁ log₁ hrest h x 4 hx1
            (by omega) (by omega)]
        have hx₂ := processRow_err_stable cache ws ws₁ log log₂ x _ hkey hx
        obtain ⟨log₄, h₄⟩ := ih ws _ ws₁ log₁ hrest h (.rowError x :: log₂)
        exact ⟨log₄, by simp only [updateRows, hx₂]; exact h₄⟩
      | ioError =>
        simp only [updateRows, hx] at h
        have hkey : rowKey ws₁ x = rowKey ws x := by
          unfold rowKey
          rw [updateRows_lowcol cache rest ws _ ws₁ log₁ hrest h x 4 hx1
            (by omega) (by omega)]
        have hx₂ := processRow_err_stable cache ws ws₁ log log₂ x _ hkey hx
        obtain ⟨log₄, h₄⟩ := ih ws _ ws₁ log₁ hrest h (.rowError x :: log₂)
        exact ⟨log₄, by simp only [updateRows, hx₂]; exact h₄⟩
      | keyError => simp only [updateRows, hx] at h; exact absurd h (by simp)
      | indexError => simp only [updateRows, hx] at h; exact absurd h (by simp)
      | typeError => simp only [updateRows, hx] at h; exact absurd h (by simp)
      | attributeError => simp only [updateRows, hx] at h; exact absurd h (by simp)

/-! ### Builder lemmas -/

theorem getD_map_lt {f : α → β} (l : List α) (dflt : α) (d : β) :
    ∀ i, i < l.length → (l.map f).getD i d = f (l.getD i dflt) := by
  induction l with
  | nil => intro i h; simp at h
  | cons a l ih =>
    intro i h
    cases i with
    | zero => simp
    | succ i => simpa using ih i (by simpa using h)

theorem writeCols_getRow_ne :
    ∀ (vals : List String) (ws : Sheet) (r c r' : Nat), 1 ≤ r → 1 ≤ r' → r' ≠ r →
      getRow (writeCols ws r c vals) r' = getRow ws r' := by
  intro vals
  induction vals with
  | nil => intro ws r c r' _ _ _; rfl
  | cons v vs ih =>
    intro ws r c r' hr hr' hne
    show getRow (writeCols (setCellValue ws r c (.str v)) r (c + 1) vs) r' = _
    rw [ih _ r (c + 1) r' hr hr' hne, getRow_setCellValue_ne ws r c r' _ hr hr' hne]

theorem writeCols_length :
    ∀ (vals : List String) (ws : Sheet) (r c : Nat), 1 ≤ r → vals ≠ [] →
      (writeCols ws r c vals).length = max ws.length r := by
  intro vals
  induction vals with
  | nil => intro ws r c _ hne; exact absurd rfl hne
  | cons v vs ih =>
    intro ws r c hr _
    show (writeCols (setCellValue ws r c (.str v)) r (c + 1) vs).length = _
    cases vs with
    | nil => exact setCellValue_length ws r c _ hr
    | cons w ws' =>
      rw [ih _ r (c + 1) hr (by simp), setCellValue_length ws r c _ hr]
      omega

theorem writeCols_preserve_low :
    ∀ (vals : List String) (ws : Sheet) (r c c' : Nat), 1 ≤ c' → c' < c →
      getCellValue (writeCols ws r c vals) r c' = getCellValue ws r c' := by
  intro vals
  induction vals with
  | nil => intro ws r c c' _ _; rfl
  | cons v vs ih =>
    intro ws r c c' hc' hlt
    show getCellValue (writeCols (setCellValue ws r c (.str v)) r (c + 1) vs) r c' = _
    rw [ih _ r (c + 1) c' hc' (by omega),
      getCellValue_setCellValue_ne_col ws r c c' _ (by omega) hc' (by omega)]

theorem writeCols_read :
    ∀ (vals : List String) (ws : Sheet) (r c : Nat) (i : Nat), 1 ≤ c → i < vals.length →
      getCellValue (writeCols ws r c vals) r (c + i) = .str (vals.getD i "") := by
  intro vals
  induction vals with
  | nil => intro ws r c i _ h; simp at h
  | cons v vs ih =>
    intro ws r c i hc hi
    cases i with
    | zero =>
      show getCellValue (writeCols (setCellValue ws r c (.str v)) r (c + 1) vs) r (c + 0) = _
      rw [writeCols_preserve_low vs _ r (c + 1) (c + 0) (by omega) (by omega)]
      simpa using getCellValue_setCellValue_self ws r c (.str v)
    | succ i =>
      show getCellValue (writeCols (setCellValue ws r c (.str v)) r (c + 1) vs) r (c + (i + 1)) = _
      have : c + (i + 1) = (c + 1) + i := by omega
      rw [this, ih _ r (c + 1) i (by omega) (by simpa using hi)]
      simp

theorem writeCols_rowlen :
    ∀ (vals : List String) (ws : Sheet) (r c : Nat), vals ≠ [] →
      c + vals.length - 1 ≤ (getRow (writeCols ws r c vals) r).length := by
  intro vals
  induction vals with
  | nil => intro ws r c hne; exact absurd rfl hne
  | cons v vs ih =>
    intro ws r c _
    cases vs with
    | nil =>
      show c + 1 - 1 ≤ (getRow (setCellValue ws r c (.str v)) r).length
      rw [getRow_setCellValue_self, setValFn_length]
      omega
    | cons w ws' =>
      show c + (ws'.length + 1 + 1) - 1 ≤
        (getRow (writeCols (setCellValue ws r c (.str v)) r (c + 1) (w :: ws')) r).length
      have := ih (setCellValue ws r c (.str v)) r (c + 1) (by simp)
      simp only [List.length_cons] at this ⊢
      omega

theorem writeCols_noop :
    ∀ (vals : List String) (ws : Sheet) (r c : Nat), 1 ≤ r → 1 ≤ c → r ≤ ws.length →
      (∀ i, i < vals.length → c + i ≤ (getRow ws r).length ∧
        getCellValue ws r (c + i) = .str (vals.getD i "")) →
      writeCols ws r c vals = ws := by
  intro vals
  induction vals with
  | nil => intro ws r c _ _ _ _; rfl
  | cons v vs ih =>
    intro ws r c hr hc hle hcond
    have h0 := hcond 0 (by simp)
    have hset : setCellValue ws r c (.str v) = ws := by
      apply setCellValue_noop
      · omega
      · have := h0.1; omega
      · simpa using h0.2
    show writeCols (setCellValue ws r c (.str v)) r (c + 1) vs = ws
    rw [hset]
    apply ih ws r (c + 1) hr (by omega) hle
    intro i hi
    have := hcond (i + 1) (by simpa using hi)
    constructor
    · omega
    · have harith : c + 1 + i = c + (i + 1) := by omega
      rw [harith]
      simpa using this.2

theorem writeRows_getRow_out :
    ∀ (data : List (List String)) (ws : Sheet) (k r' : Nat), 1 ≤ k → 1 ≤ r' →
      (r' < k ∨ k + data.length ≤ r') →
      getRow (writeRows ws k data) r' = getRow ws r' := by
  intro data
  induction data with
  | nil => intro ws k r' _ _ _; rfl
  | cons row rest ih =>
    intro ws k r' hk hr' hout
    show getRow (writeRows (writeCols ws k 1 row) (k + 1) rest) r' = _
    rw [ih _ (k + 1) r' (by omega) hr'
        (by simp only [List.length_cons] at hout; omega),
      writeCols_getRow_ne row ws k 1 r' hk hr'
        (by simp only [List.length_cons] at hout; omega)]

theorem writeRows_length :
    ∀ (data : List (List String)) (ws : Sheet) (k : Nat), 1 ≤ k →
      (∀ row ∈ data, row ≠ []) →
      (writeRows ws k data).length
        = if data.length = 0 then ws.length else max ws.length (k + data.length - 1) := by
  intro data
  induction data with
  | nil => intro ws k _ _; simp [writeRows]
  | cons row rest ih =>
    intro ws k hk hne
    show (writeRows (writeCols ws k 1 row) (k + 1) rest).length = _
    rw [ih _ (k + 1) (by omega) (fun q hq => hne q (by simp [hq])),
      writeCols_length row ws k 1 hk (hne row (by simp))]
    cases rest with
    | nil => simp
    | cons q qs =>
      simp only [List.length_cons, if_neg (by omega : ¬(qs.length + 1 = 0)),
        if_neg (by omega : ¬(qs.length + 1 + 1 = 0))]
      omega

theorem writeRows_read :
    ∀ (data : List (List String)) (ws : Sheet) (k i j : Nat), 1 ≤ k →
      i < data.length → j < (data.getD i []).length →
      getCellValue (writeRows ws k data) (k + i) (1 + j)
        = .str ((data.getD i []).getD j "") := by
  intro data
  induction data with
  | nil => intro ws k i j _ h _; simp at h
  | cons row rest ih =>
    intro ws k i j hk hi hj
    cases i with
    | zero =>
      show getCellValue (writeRows (writeCols ws k 1 row) (k + 1) rest) (k + 0) (1 + j) = _
      have hrow : getRow (writeRows (writeCols ws k 1 row) (k + 1) rest) (k + 0)
          = getRow (writeCols ws k 1 row) (k + 0) :=
        writeRows_getRow_out rest _ (k + 1) (k + 0) (by omega) (by omega) (by omega)
      unfold getCellValue getCell
      rw [hrow]
      have := writeCols_read row ws k 1 j (by omega) (by simpa using hj)
      simpa [getCellValue, getCell] using this
    | succ i =>
      show getCellValue (writeRows (writeCols ws k 1 row) (k + 1) rest) (k + (i + 1)) (1 + j) = _
      have harith : k + (i + 1) = (k + 1) + i := by omega
      rw [harith, ih _ (k + 1) i j (by omega) (by simpa using hi) (by simpa using hj)]
      simp

theorem writeRows_rowlen :
    ∀ (data : List (List String)) (ws : Sheet) (k i : Nat), 1 ≤ k → i < data.length →
      (data.getD i []).length ≤ (getRow (writeRows ws k data) (k + i)).length := by
  intro data
  induction data with
  | nil => intro ws k i _ h; simp at h
  | cons row rest ih =>
    intro ws k i hk hi
    cases i with
    | zero =>
      show (((row :: rest).getD 0 []).length : Nat) ≤
        (getRow (writeRows (writeCols ws k 1 row) (k + 1) rest) (k + 0)).length
      rw [writeRows_getRow_out rest (writeCols ws k 1 row) (k + 1) (k + 0)
        (by omega) (by omega) (by omega)]
      simp only [List.getD_cons_zero, Nat.add_zero]
      cases row with
      | nil => simp
      | cons v vs =>
        have := writeCols_rowlen (v :: vs) ws k 1 (by simp)
        simp only [List.length_cons] at this ⊢
        omega
    | succ i =>
      have harith : k + (i + 1) = (k + 1) + i := by omega
      show ((row :: rest).getD (i + 1) []).length ≤ _
      rw [harith]
      simpa using ih (writeCols ws k 1 row) (k + 1) i (by omega) (by simpa using hi)

theorem writeRows_noop :
    ∀ (data : List (List String)) (ws : Sheet) (k : Nat), 1 ≤ k →
      (∀ i, i < data.length → k + i ≤ ws.length ∧
        ∀ j, j < (data.getD i []).length →
          1 + j ≤ (getRow ws (k + i)).length ∧
          getCellValue ws (k + i) (1 + j) = .str ((data.getD i []).getD j "")) →
      writeRows ws k data = ws := by
  intro data
  induction data with
  | nil => intro ws k _ _; rfl
  | cons row rest ih =>
    intro ws k hk hcond
    have h0 := hcond 0 (by simp)
    have hwc : writeCols ws k 1 row = ws := by
      apply writeCols_noop row ws k 1 hk (by omega) (by simpa using h0.1)
      intro j hj
      have := h0.2 j (by simpa using hj)
      refine ⟨by simpa using this.1, by simpa using this.2⟩
    show writeRows (writeCols ws k 1 row) (k + 1) rest = ws
    rw [hwc]
    apply ih ws (k + 1) (by omega)
    intro i hi
    have := hcond (i + 1) (by simpa using hi)
    have harith : k + 1 + i = k + (i + 1) := by omega
    rw [harith]
    exact ⟨this.1, fun j hj => this.2 j (by simpa using hj)⟩

/-! ### Pipeline-level facts -/

theorem getD_mem (l : List α) (d : α) : ∀ i, i < l.length → l.getD i d ∈ l := by
  induction l with
  | nil => intro i h; simp at h
  | cons a l ih =>
    intro i h
    cases i with
    | zero => simp
    | succ i => exact List.mem_cons_of_mem _ (ih i (by simpa using h))

theorem upsert_keys (l : List (String × Finding)) (k : String) (v : Finding) :
    ∀ kv ∈ upsert l k v, kv.1 = k ∨ ∃ kv₂ ∈ l, kv₂.1 = kv.1 := by
  intro kv hkv
  unfold upsert at hkv
  split at hkv
  · obtain ⟨kv₂, hkv₂, heq⟩ := List.mem_map.mp hkv
    by_cases hcase : kv₂.1 = k
    · rw [if_pos hcase] at heq
      left
      rw [← heq]
    · rw [if_neg hcase] at heq
      right
      exact ⟨kv₂, hkv₂, by rw [heq]⟩
  · rcases List.mem_append.mp hkv with hmem | hmem
    · exact Or.inr ⟨kv, hmem, rfl⟩
    · left
      simp only [List.mem_singleton] at hmem
      rw [hmem]

theorem buildCvedict_keys (csvRows : List CsvRow) :
    ∀ kv ∈ buildCvedict csvRows, ∃ row ∈ csvRows, row.cve = kv.1 ∧ kv.1 ≠ "" := by
  suffices h : ∀ (acc : List (String × Finding)),
      (∀ kv ∈ acc, ∃ row ∈ csvRows, row.cve = kv.1 ∧ kv.1 ≠ "") →
      (∀ kv ∈ csvRows.foldl
        (fun acc row => if row.cve = "" then acc else upsert acc row.cve row.finding) acc,
        ∃ row ∈ csvRows, row.cve = kv.1 ∧ kv.1 ≠ "") by
    exact h [] (by simp)
  suffices hgen : ∀ (rows : List CsvRow), (∀ row ∈ rows, row ∈ csvRows) →
      ∀ (acc : List (String × Finding)),
      (∀ kv ∈ acc, ∃ row ∈ csvRows, row.cve = kv.1 ∧ kv.1 ≠ "") →
      (∀ kv ∈ rows.foldl
        (fun acc row => if row.cve = "" then acc else upsert acc row.cve row.finding) acc,
        ∃ row ∈ csvRows, row.cve = kv.1 ∧ kv.1 ≠ "") by
    exact fun acc hacc => hgen csvRows (fun r hr => hr) acc hacc
  intro rows
  induction rows with
  | nil => intro _ acc hacc kv hkv; exact hacc kv hkv
  | cons row rest ih =>
    intro hsub acc hacc kv hkv
    simp only [List.foldl_cons] at hkv
    by_cases hemp : row.cve = ""
    · rw [if_pos hemp] at hkv
      exact ih (fun q hq => hsub q (by simp [hq])) acc hacc kv hkv
    · rw [if_neg hemp] at hkv
      refine ih (fun q hq => hsub q (by simp [hq])) _ ?_ kv hkv
      intro kv₂ hkv₂
      rcases upsert_keys acc row.cve row.finding kv₂ hkv₂ with heq | ⟨kv₃, hkv₃, heq⟩
      · exact ⟨row, hsub row (by simp), heq.symm, by rw [heq]; exact hemp⟩
      · obtain ⟨r₃, hr₃, he₃, hne₃⟩ := hacc kv₃ hkv₃
        exact ⟨r₃, hr₃, by rw [he₃, heq], by rw [← heq]; exact hne₃⟩

theorem dataRowNums_mem (ws : Sheet) (r : Nat) :
    r ∈ dataRowNums ws ↔ 2 ≤ r ∧ r ≤ ws.length := by
  unfold dataRowNums
  simp only [List.mem_map, List.mem_range]
  constructor
  · rintro ⟨i, hi, rfl⟩
    omega
  · rintro ⟨h2, hle⟩
    exact ⟨r - 2, by omega, by omega⟩

theorem build_length (d : List (String × Finding)) :
    (write_to_excel none d).length = d.length + 1 := by
  have hfresh : freshSheet.length = 1 := rfl
  show (writeRows freshSheet 2 (d.map rowVals)).length = d.length + 1
  rw [writeRows_length (d.map rowVals) freshSheet 2 (by omega)
    (fun row hrow => by
      obtain ⟨kv, _, rfl⟩ := List.mem_map.mp hrow
      simp [rowVals])]
  simp only [List.length_map]
  by_cases hd : d.length = 0
  · rw [if_pos hd, hfresh, hd]
  · rw [if_neg hd, hfresh]
    omega

theorem build_read (d : List (String × Finding)) (i j : Nat)
    (hi : i < d.length) (hj : j < 4) :
    getCellValue (write_to_excel none d) (2 + i) (1 + j)
      = .str ((rowVals (d.getD i noEntry)).getD j "") := by
  show getCellValue (writeRows freshSheet 2 (d.map rowVals)) (2 + i) (1 + j) = _
  rw [writeRows_read (d.map rowVals) freshSheet 2 i j (by omega)
    (by simpa using hi)
    (by rw [getD_map_lt d noEntry [] i hi]; simp [rowVals]; omega),
    getD_map_lt d noEntry [] i hi]

theorem build_rowlen (d : List (String × Finding)) (i : Nat) (hi : i < d.length) :
    4 ≤ (getRow (write_to_excel none d) (2 + i)).length := by
  show 4 ≤ (getRow (writeRows freshSheet 2 (d.map rowVals)) (2 + i)).length
  have := writeRows_rowlen (d.map rowVals) freshSheet 2 i (by omega) (by simpa using hi)
  rw [getD_map_lt d noEntry [] i hi] at this
  simpa [rowVals] using this

theorem build_rowKey (d : List (String × Finding)) (i : Nat) (hi : i < d.length) :
    rowKey (write_to_excel none d) (2 + i) = (d.getD i noEntry).1 := by
  unfold rowKey
  have h4 : (4 : Nat) = 1 + 3 := by omega
  rw [h4, build_read d i 3 hi (by omega)]
  rfl

theorem rewrite_noop (d : List (String × Finding)) (w : Sheet)
    (hlen : ∀ i, i < d.length → 2 + i ≤ w.length)
    (hrow : ∀ i, i < d.length → ∀ j, j < 4 →
      1 + j ≤ (getRow w (2 + i)).length ∧
      getCellValue w (2 + i) (1 + j) = .str ((rowVals (d.getD i noEntry)).getD j "")) :
    write_to_excel (some w) d = w := by
  show writeRows w 2 (d.map rowVals) = w
  apply writeRows_noop (d.map rowVals) w 2 (by omega)
  intro i hi
  simp only [List.length_map] at hi
  rw [getD_map_lt d noEntry [] i hi]
  refine ⟨hlen i hi, ?_⟩
  intro j hj
  have hj4 : j < 4 := by simpa [rowVals] using hj
  exact hrow i hi j hj4

theorem build_rows_cached (cache : Cache) (csvRows : List CsvRow)
    (hc : ∀ row ∈ csvRows, row.cve ≠ "" → (cache.lookup row.cve).isSome) :
    ∀ r ∈ dataRowNums (write_to_excel none (buildCvedict csvRows)),
      (cache.lookup (rowKey (write_to_excel none (buildCvedict csvRows)) r)).isSome := by
  intro r hr
  rw [dataRowNums_mem, build_length] at hr
  obtain ⟨i, rfl⟩ : ∃ i, r = 2 + i := ⟨r - 2, by omega⟩
  have hi : i < (buildCvedict csvRows).length := by omega
  rw [build_rowKey _ i hi]
  have hmem := getD_mem (buildCvedict csvRows) noEntry i hi
  obtain ⟨row, hrowmem, hcve, hne⟩ := buildCvedict_keys csvRows _ hmem
  rw [← hcve]
  exact hc row hrowmem (by rw [hcve]; exact hne)

theorem coordinator_ids_cached (env : Env) (st : St) (ws : Sheet)
    (h : ∀ r ∈ dataRowNums ws, (st.cache.lookup (rowKey ws r)).isSome) :
    ∃ log', runCoordinator env ((cveVals ws).map pyStr) st =
      { cache := st.cache, log := log',
        requests := st.requests, sleeps := st.sleeps } := by
  apply runCoordinator_cached
  intro id hid
  obtain ⟨v, hv, rfl⟩ := List.mem_map.mp hid
  obtain ⟨r, hrmem, rfl⟩ := List.mem_map.mp hv
  exact h r hrmem

/-- C8: running the per-file pipeline a second time on an unchanged input
with a fully populated cache reproduces the same document and cache. -/
theorem pipeline_idempotent (env : Env) (st : St) (csvRows : List CsvRow)
    (hc : ∀ row ∈ csvRows, row.cve ≠ "" → (st.cache.lookup row.cve).isSome) :
    (process_csv_file env (process_csv_file env st csvRows none).1 csvRows
        (process_csv_file env st csvRows none).2).2
      = (process_csv_file env st csvRows none).2 ∧
    (process_csv_file env (process_csv_file env st csvRows none).1 csvRows
        (process_csv_file env st csvRows none).2).1.cache = st.cache := by
  have hcach0 := build_rows_cached st.cache csvRows hc
  have hrowsge : ∀ r ∈ dataRowNums (write_to_excel none (buildCvedict csvRows)), 1 ≤ r := by
    intro r hr
    rw [dataRowNums_mem] at hr
    omega
  have hrowsbound : ∀ r ∈ dataRowNums (write_to_excel none (buildCvedict csvRows)),
      1 ≤ r ∧ r ≤ (write_to_excel none (buildCvedict csvRows)).length := by
    intro r hr
    rw [dataRowNums_mem] at hr
    omega
  obtain ⟨L1, hco1⟩ := coordinator_ids_cached env st _ hcach0
  cases hur : updateRows st.cache (write_to_excel none (buildCvedict csvRows)) L1
      (dataRowNums (write_to_excel none (buildCvedict csvRows))) with
  | ok ws₁ log₁ =>
    have hue1 : update_excel env st (some (write_to_excel none (buildCvedict csvRows)))
        = ({ cache := st.cache, log := log₁, requests := st.requests,
             sleeps := st.sleeps }, .saved ws₁) := by
      simp only [update_excel, hco1, hur]
    have hrun1 : process_csv_file env st csvRows none
        = ({ cache := st.cache, log := log₁, requests := st.requests,
             sleeps := st.sleeps }, some ws₁) := by
      simp only [process_csv_file, hue1]
    have hlen1 : ws₁.length = (write_to_excel none (buildCvedict csvRows)).length :=
      updateRows_length st.cache _ _ L1 ws₁ log₁ hrowsbound hur
    have hlow : ∀ r c, 1 ≤ r → 1 ≤ c → (c ≤ 4 ∨ 14 ≤ c) →
        getCellValue ws₁ r c
          = getCellValue (write_to_excel none (buildCvedict csvRows)) r c :=
      updateRows_lowcol st.cache _ _ L1 ws₁ log₁ hrowsge hur
    have hrlen : ∀ r, 1 ≤ r →
        (getRow (write_to_excel none (buildCvedict csvRows)) r).length
          ≤ (getRow ws₁ r).length :=
      updateRows_rowlen_mono st.cache _ _ L1 ws₁ log₁ hrowsge hur
    have hdrn : dataRowNums ws₁
        = dataRowNums (write_to_excel none (buildCvedict csvRows)) := by
      unfold dataRowNums
      rw [hlen1]
    have hkey1 : ∀ r, 1 ≤ r → rowKey ws₁ r
        = rowKey (write_to_excel none (buildCvedict csvRows)) r := by
      intro r hr
      unfold rowKey
      rw [hlow r 4 hr (by omega) (by omega)]
    have hrw : write_to_excel (some ws₁) (buildCvedict csvRows) = ws₁ := by
      apply rewrite_noop
      · intro i hi
        rw [hlen1, build_length]
        omega
      · intro i hi j hj
        constructor
        · calc 1 + j ≤ 4 := by omega
            _ ≤ (getRow (write_to_excel none (buildCvedict csvRows)) (2 + i)).length :=
              build_rowlen _ i hi
            _ ≤ _ := hrlen (2 + i) (by omega)
        · rw [hlow (2 + i) (1 + j) (by omega) (by omega) (by omega)]
          exact build_read _ i j hi hj
    have hcach1 : ∀ r ∈ dataRowNums ws₁,
        ((({ cache := st.cache, log := log₁, requests := st.requests, sleeps := st.sleeps } : St).cache).lookup (rowKey ws₁ r)).isSome := by
      intro r hr
      rw [hdrn] at hr
      show (st.cache.lookup (rowKey ws₁ r)).isSome
      rw [hkey1 r (hrowsge r hr)]
      exact hcach0 r hr
    obtain ⟨L2, hco2⟩ := coordinator_ids_cached env _ ws₁ hcach1
    obtain ⟨log₃, hur2⟩ := updateRows_idem st.cache _ _ L1 ws₁ log₁ hrowsge hur L2
    have hur2' : updateRows st.cache ws₁ L2 (dataRowNums ws₁) = .ok ws₁ log₃ := by
      rw [hdrn]
      exact hur2
    have hue2 : update_excel env ({ cache := st.cache, log := log₁, requests := st.requests, sleeps := st.sleeps } : St) (some ws₁)
        = ({ cache := st.cache, log := log₃, requests := st.requests, sleeps := st.sleeps }, .saved ws₁) := by
      simp only [update_excel, hco2, hur2']
    have hrun2 : process_csv_file env ({ cache := st.cache, log := log₁, requests := st.requests, sleeps := st.sleeps } : St) csvRows (some ws₁)
        = ({ cache := st.cache, log := log₃, requests := st.requests, sleeps := st.sleeps }, some ws₁) := by
      simp only [process_csv_file, hrw, hue2]
    rw [hrun1]
    constructor
    · show (process_csv_file env ({ cache := st.cache, log := log₁, requests := st.requests, sleeps := st.sleeps } : St) csvRows (some ws₁)).2 = some ws₁
      rw [hrun2]
    · show (process_csv_file env ({ cache := st.cache, log := log₁, requests := st.requests, sleeps := st.sleeps } : St) csvRows (some ws₁)).1.cache = st.cache
      rw [hrun2]
  | err e log₁ =>
    have hue1 : update_excel env st (some (write_to_excel none (buildCvedict csvRows)))
        = ({ cache := st.cache, log := log₁, requests := st.requests,
             sleeps := st.sleeps }, .raised e) := by
      simp only [update_excel, hco1, hur]
    have hrun1 : process_csv_file env st csvRows none
        = ({ cache := st.cache, log := .fileError :: log₁, requests := st.requests,
             sleeps := st.sleeps }, some (write_to_excel none (buildCvedict csvRows))) := by
      simp only [process_csv_file, hue1]
    have hrw : write_to_excel (some (write_to_excel none (buildCvedict csvRows)))
        (buildCvedict csvRows) = write_to_excel none (buildCvedict csvRows) := by
      apply rewrite_noop
      · intro i hi
        rw [build_length]
        omega
      · intro i hi j hj
        exact ⟨by
          calc 1 + j ≤ 4 := by omega
            _ ≤ _ := build_rowlen _ i hi,
          build_read _ i j hi hj⟩
    have hcach0' : ∀ r ∈ dataRowNums (write_to_excel none (buildCvedict csvRows)),
        ((({ cache := st.cache, log := .fileError :: log₁, requests := st.requests, sleeps := st.sleeps } : St).cache).lookup (rowKey (write_to_excel none (buildCvedict csvRows)) r)).isSome := hcach0
    obtain ⟨L2, hco2⟩ := coordinator_ids_cached env _ _ hcach0'
    have hsh := updateRows_sheetOut_log st.cache
      (dataRowNums (write_to_excel none (buildCvedict csvRows)))
      (write_to_excel none (buildCvedict csvRows)) L2 L1
    rw [hur] at hsh
    cases hur2 : updateRows st.cache (write_to_excel none (buildCvedict csvRows)) L2
        (dataRowNums (write_to_excel none (buildCvedict csvRows))) with
    | ok w₂ l₂ =>
      rw [hur2] at hsh
      exact absurd hsh (by simp [RowsResult.sheetOut])
    | err e₂ l₂ =>
      rw [hur2] at hsh
      have he : e₂ = e := by
        simpa [RowsResult.sheetOut] using hsh
      subst he
      have hue2 : update_excel env ({ cache := st.cache, log := .fileError :: log₁, requests := st.requests, sleeps := st.sleeps } : St) (some (write_to_excel none (buildCvedict csvRows)))
          = ({ cache := st.cache, log := l₂, requests := st.requests, sleeps := st.sleeps }, .raised e₂) := by
        simp only [update_excel, hco2, hur2]
      have hrun2 : process_csv_file env ({ cache := st.cache, log := .fileError :: log₁, requests := st.requests, sleeps := st.sleeps } : St) csvRows (some (write_to_excel none (buildCvedict csvRows)))
          = ({ cache := st.cache, log := .fileError :: l₂, requests := st.requests, sleeps := st.sleeps }, some (write_to_excel none (buildCvedict csvRows))) := by
        simp only [process_csv_file, hrw, hue2]
      rw [hrun1]
      constructor
      · show (process_csv_file env ({ cache := st.cache, log := .fileError :: log₁, requests := st.requests, sleeps := st.sleeps } : St) csvRows (some (write_to_excel none (buildCvedict csvRows)))).2 = some (write_to_excel none (buildCvedict csvRows))
        rw [hrun2]
      · show (process_csv_file env ({ cache := st.cache, log := .fileError :: log₁, requests := st.requests, sleeps := st.sleeps } : St) csvRows (some (write_to_excel none (buildCvedict csvRows)))).1.cache = st.cache
        rw [hrun2]

theorem versionsAux_absent (mets : Json) :
    ∀ (ps : List (String × String)) (acc : List (String × String) × List (Nat × String)),
      (∀ p ∈ ps, mets.hasKey p.1 = .ok false) →
      versionsAux mets ps acc = .ok acc := by
  intro ps
  induction ps with
  | nil => intro acc _; rfl
  | cons p rest ih =>
    intro acc habs
    obtain ⟨scores, writes⟩ := acc
    have hv : versionVal mets p = .ok none := by
      unfold versionVal
      rw [habs p (by simp)]
    show versionsAux mets (p :: rest) (scores, writes) = .ok (scores, writes)
    rw [versionsAux, hv]
    exact ih (scores, writes) (fun q hq => habs q (by simp [hq]))

theorem rowVerdict_no_metrics (j vul v0 cveInfo mets : Json) (cwe : Option Json)
    (hv : j.dictGet "vulnerabilities" (.arr []) = .ok vul)
    (hnf : pyFalsy vul = false)
    (h0 : vul.index 0 = .ok v0)
    (hcve : v0.dictGet "cve" (.obj []) = .ok cveInfo)
    (hmet : cveInfo.dictGet "metrics" (.obj []) = .ok mets)
    (hcwe : cweVal cveInfo = .ok cwe)
    (habs : ∀ p ∈ versionPairs, mets.hasKey p.1 = .ok false) :
    rowVerdict j = .ok (.enrich cwe [] true) := by
  have hvv : versionsVal mets = .ok (initScores, []) :=
    versionsAux_absent mets versionPairs _ habs
  have hNA : allNA initScores = true := by decide
  simp only [rowVerdict, hv, hnf, Bool.false_eq_true, if_false, h0, hcve, hmet, hcwe,
    hvv, hNA]

/-- C2 (amended): a row whose record parses, has a nonempty vulnerability
list, and offers none of the four scheme versions in its metrics, gets the
fallback fill on every cell of the row (columns 1-13); its eight
score/vector cells keep their previous values — they are not written to
"N/A"; processing returns normally (the row loop continues), logging the
no-scores error. -/
theorem no_score_row_highlight_cells_blank (cache : Cache) (ws : Sheet)
    (log : List LogEvent) (r : Nat) (j vul v0 cveInfo mets : Json) (cwe : Option Json)
    (hlk : cache.lookup (rowKey ws r) = some (.parsed j))
    (hv : j.dictGet "vulnerabilities" (.arr []) = .ok vul)
    (hnf : pyFalsy vul = false)
    (h0 : vul.index 0 = .ok v0)
    (hcve : v0.dictGet "cve" (.obj []) = .ok cveInfo)
    (hmet : cveInfo.dictGet "metrics" (.obj []) = .ok mets)
    (hcwe : cweVal cveInfo = .ok cwe)
    (habs : ∀ p ∈ versionPairs, mets.hasKey p.1 = .ok false) :
    ∃ res, processRow cache ws log r = .ok (res, .noScores (rowKey ws r) :: log) ∧
      (∀ c, 6 ≤ c → c ≤ 13 → getCellValue res r c = getCellValue ws r c) ∧
      (∀ c, 1 ≤ c → c ≤ 13 → (getCell res r c).fill = some grayFill) := by
  have hverd := rowVerdict_no_metrics j vul v0 cveInfo mets cwe hv hnf h0 hcve hmet hcwe habs
  have hchar := processRow_enrich_char cache ws log r j cwe [] true hlk hverd
  rw [if_pos rfl] at hchar
  refine ⟨_, hchar, ?_, ?_⟩
  · intro c h6 h13
    unfold getCellValue getCell getRow
    rw [padModify_getD_self]
    show ((enrichRowFn cwe [] true (ws.getD (r - 1) [])).getD (c - 1) emptyCell).value
      = ((ws.getD (r - 1) []).getD (c - 1) emptyCell).value
    unfold enrichRowFn
    rw [if_pos rfl]
    show ((fillAllFn grayFill (writesRowFn []
        (cweRowFn cwe (ws.getD (r - 1) [])))).getD (c - 1) emptyCell).value = _
    rw [fillAllFn_value]
    show ((cweRowFn cwe (ws.getD (r - 1) [])).getD (c - 1) emptyCell).value = _
    rw [cweRowFn_getD_ne _ _ _ (by omega)]
  · intro c h1 h13
    unfold getCell getRow
    rw [padModify_getD_self]
    show ((enrichRowFn cwe [] true (ws.getD (r - 1) [])).getD (c - 1) emptyCell).fill
      = some grayFill
    unfold enrichRowFn
    rw [if_pos rfl]
    exact fillAllFn_fill _ _ _ (by omega)

/-- C2 (amended) witness: concrete instantiation on the metrics-free
record of the end-to-end example. -/
theorem no_score_row_highlight_cells_blank_witness :
    cacheNoMetrics.lookup
        (rowKey (write_to_excel none (buildCvedict csvExample)) 2)
      = some (.parsed recNoMetrics) ∧
    (∀ p ∈ versionPairs, (Json.obj []).hasKey p.1 = .ok false) ∧
    (∃ res, processRow cacheNoMetrics (write_to_excel none (buildCvedict csvExample)) [] 2
        = .ok (res, .noScores (rowKey (write_to_excel none (buildCvedict csvExample)) 2) :: []) ∧
      (∀ c, 6 ≤ c → c ≤ 13 → getCellValue res 2 c
        = getCellValue (write_to_excel none (buildCvedict csvExample)) 2 c) ∧
      (∀ c, 1 ≤ c → c ≤ 13 → (getCell res 2 c).fill = some grayFill)) :=
  ⟨rfl, by intro p hp; fin_cases hp <;> rfl,
    no_score_row_highlight_cells_blank cacheNoMetrics _ [] 2 recNoMetrics
      (.arr [.obj [("cve", .obj [])]]) (.obj [("cve", .obj [])]) (.obj []) (.obj []) none
      rfl rfl rfl rfl rfl rfl rfl (by intro p hp; fin_cases hp <;> rfl)⟩

/-- C2 (counterexample): with a cached record containing zero
vulnerability entries (a cache entry with no usable score for any scheme
version), the merge step leaves the row with no highlight fill and its
score cells empty — not the "N/A" marker the claim requires. -/
theorem zero_vulns_row_not_marked :
    stEmpty.cache.lookup "CVE-2021-44228" = some (.parsed recEmpty) ∧
    getCellValue ((process_csv_file envFail stEmpty csvExample none).2.getD []) 2 6 = .null ∧
    (getCell ((process_csv_file envFail stEmpty csvExample none).2.getD []) 2 6).fill = none ∧
    (getCell ((process_csv_file envFail stEmpty csvExample none).2.getD []) 2 1).fill = none ∧
    ¬ getCellValue ((process_csv_file envFail stEmpty csvExample none).2.getD []) 2 6
        = .str "N/A" :=
  ⟨rfl, rfl, rfl, rfl, fun h => Json.noConfusion h⟩

/-- C1 (code evaluated at the failing input): on the spec's end-to-end
example — a cached `cvssMetricV31` record with base score 10.0 and vector
`CVSS:3.1/AV:N/...` — the merge writes the base score verbatim and leaves
the row un-highlighted, but the vector cell still carries the `CVSS:3.1/`
scheme prefix: the code's `replace` removes the literal `CVSS:V31/`
(built from the column label), which never occurs in real vector
strings. -/
theorem v31_vector_keeps_scheme_prefix :
    getCellValue ((process_csv_file envFail stV31 csvExample none).2.getD []) 2 10
      = .str "10.0" ∧
    getCellValue ((process_csv_file envFail stV31 csvExample none).2.getD []) 2 11
      = .str "CVSS:3.1/AV:N/AC:L/PR:N/UI:N/S:C/C:H/I:H/A:H" ∧
    getCellValue ((process_csv_file envFail stV31 csvExample none).2.getD []) 2 5
      = .str "CWE-502" ∧
    (getCell ((process_csv_file envFail stV31 csvExample none).2.getD []) 2 1).fill = none :=
  ⟨rfl, rfl, rfl, rfl⟩

/-- C3: a fetch of an uncached identifier whose every attempt fails with
a request-level error performs exactly 3 requests, with the fixed
one-second pause (`slept`) between consecutive attempts, creates no cache
entry (the state's cache is unchanged), and returns normally with the
give-up message logged. -/
theorem fetch_exhausts_three_attempts (env : Env) (id : String) (st : St)
    (hnc : st.cache.lookup id = none)
    (hfail : ∀ n, env.net id n = .requestError) :
    getCVEInfo env id st =
      { st with
        requests := st.requests + 3, sleeps := st.sleeps + 2,
        log := .fetchGaveUp :: .requestFailed 3 :: .slept :: .requestFailed 2 ::
               .slept :: .requestFailed 1 :: .fetchStart id :: st.log } :=
  fetch_allfail_aux env id st hnc hfail

theorem fetch_exhausts_three_attempts_witness :
    stInit.cache.lookup "CVE-X" = none ∧
    getCVEInfo envFail "CVE-X" stInit =
      { stInit with
        requests := stInit.requests + 3, sleeps := stInit.sleeps + 2,
        log := .fetchGaveUp :: .requestFailed 3 :: .slept :: .requestFailed 2 ::
               .slept :: .requestFailed 1 :: .fetchStart "CVE-X" :: stInit.log } :=
  ⟨rfl, fetch_exhausts_three_attempts envFail "CVE-X" stInit rfl (fun n => rfl)⟩

/-- C4: fetching an identifier that already has a cache file only logs
the no-op: the returned state differs from the input state in the log
alone, so no network request is made (`requests` unchanged) and the
stored record — indeed the whole cache — is unchanged. -/
theorem fetch_cached_is_noop (env : Env) (id : String) (st : St)
    (h : (st.cache.lookup id).isSome) :
    getCVEInfo env id st = { st with log := .alreadyCached id :: st.log } :=
  fetch_cached_aux env id st h

theorem fetch_cached_is_noop_witness :
    (stV31.cache.lookup "CVE-2021-44228").isSome ∧
    getCVEInfo envFail "CVE-2021-44228" stV31
      = { stV31 with log := .alreadyCached "CVE-2021-44228" :: stV31.log } :=
  ⟨rfl, fetch_cached_is_noop envFail "CVE-2021-44228" stV31 rfl⟩

/-- C6: when the CVE of a data row has no cache file at all, the per-row
merge logs the missing-cache warning and returns the sheet completely
unchanged — no scores, no "N/A" marker, no fill — and the row loop
continues normally (the result is `ok`). -/
theorem merge_missing_cache_row_untouched (cache : Cache) (ws : Sheet)
    (log : List LogEvent) (r : Nat)
    (h : cache.lookup (rowKey ws r) = none) :
    processRow cache ws log r = .ok (ws, .cacheMissing (rowKey ws r) :: log) :=
  processRow_missing cache ws log r h

theorem merge_missing_cache_row_untouched_witness :
    (([] : Cache).lookup (rowKey (write_to_excel none (buildCvedict csvExample)) 2) = none) ∧
    processRow [] (write_to_excel none (buildCvedict csvExample)) [] 2
      = .ok (write_to_excel none (buildCvedict csvExample),
          .cacheMissing (rowKey (write_to_excel none (buildCvedict csvExample)) 2) :: []) :=
  ⟨rfl, merge_missing_cache_row_untouched [] (write_to_excel none (buildCvedict csvExample)) [] 2 rfl⟩

/-- C5: the merge step (`update_excel_with_cve_info`), when it saves a
document, never changes the value of any cell in the PluginID, Risk,
Name, or CVE columns (1-4), nor of any column beyond the score block
(≥ 14): only the CWE cell, the eight score/vector cells and the row
styling may change. -/
theorem merge_preserves_identity_cells (env : Env) (st st' : St) (ws ws' : Sheet)
    (h : update_excel env st (some ws) = (st', .saved ws'))
    (r c : Nat) (hr : 1 ≤ r) (hc : 1 ≤ c) (hcol : c ≤ 4 ∨ 14 ≤ c) :
    getCellValue ws' r c = getCellValue ws r c := by
  cases hur : updateRows (runCoordinator env ((cveVals ws).map pyStr) st).cache ws
      (runCoordinator env ((cveVals ws).map pyStr) st).log (dataRowNums ws) with
  | ok w l =>
    simp only [update_excel, hur] at h
    have hinj : w = ws' := by
      injection h with h1 h2
      injection h2
    subst hinj
    exact updateRows_lowcol _ _ _ _ _ _
      (fun x hx => by rw [dataRowNums_mem] at hx; omega) hur r c hr hc hcol
  | err e l =>
    simp only [update_excel, hur] at h
    injection h with h1 h2
    exact absurd h2 (by simp)

theorem merge_preserves_identity_cells_witness :
    update_excel envFail stV31 (some (write_to_excel none (buildCvedict csvExample)))
      = ((update_excel envFail stV31 (some (write_to_excel none (buildCvedict csvExample)))).1,
         .saved (extractSaved
           (update_excel envFail stV31 (some (write_to_excel none (buildCvedict csvExample)))).2)) ∧
    getCellValue (extractSaved
        (update_excel envFail stV31 (some (write_to_excel none (buildCvedict csvExample)))).2) 2 4
      = getCellValue (write_to_excel none (buildCvedict csvExample)) 2 4 :=
  ⟨rfl, merge_preserves_identity_cells envFail stV31 _ _ _ rfl 2 4 (by omega) (by omega)
    (by omega)⟩

/-- C7: an unparseable cached record is caught inside the per-row
handler: removing that row from the loop's worklist does not change the
resulting sheet (nor whether the loop raises), so the malformed record
never aborts the processing of sibling rows or the final save. -/
theorem merge_unparseable_row_skipped (cache : Cache) :
    ∀ (xs : List Nat) (ws : Sheet) (log : List LogEvent) (r : Nat) (ys : List Nat),
      1 ≤ r → (∀ x ∈ xs, 1 ≤ x) →
      cache.lookup (rowKey ws r) = some .unparseable →
      (updateRows cache ws log (xs ++ r :: ys)).sheetOut
        = (updateRows cache ws log (xs ++ ys)).sheetOut := by
  intro xs
  induction xs with
  | nil =>
    intro ws log r ys hr _ hlk
    simp only [List.nil_append]
    rw [show updateRows cache ws log (r :: ys)
        = updateRows cache ws (.rowError r :: log) ys from by
      simp only [updateRows, processRow_unparseable cache ws log r hlk]]
    exact updateRows_sheetOut_log cache ys ws _ log
  | cons x xs ih =>
    intro ws log r ys hr hall hlk
    simp only [List.cons_append]
    cases hx : processRow cache ws log x with
    | ok p =>
      obtain ⟨w, l⟩ := p
      simp only [updateRows, hx]
      apply ih w l r ys hr (fun q hq => hall q (by simp [hq]))
      rw [processRow_rowKey cache ws log x w l r (hall x (by simp)) hr hx]
      exact hlk
    | error e =>
      cases e with
      | jsonDecodeError =>
        simp only [updateRows, hx]
        exact ih ws _ r ys hr (fun q hq => hall q (by simp [hq])) hlk
      | ioError =>
        simp only [updateRows, hx]
        exact ih ws _ r ys hr (fun q hq => hall q (by simp [hq])) hlk
      | keyError => simp only [updateRows, hx]
      | indexError => simp only [updateRows, hx]
      | typeError => simp only [updateRows, hx]
      | attributeError => simp only [updateRows, hx]

theorem merge_unparseable_row_skipped_witness :
    cacheTwo.lookup (rowKey (write_to_excel none dictTwo) 2) = some .unparseable ∧
    (updateRows cacheTwo (write_to_excel none dictTwo) [] ([] ++ 2 :: [3])).sheetOut
      = (updateRows cacheTwo (write_to_excel none dictTwo) [] ([] ++ [3])).sheetOut :=
  ⟨rfl, merge_unparseable_row_skipped cacheTwo [] (write_to_excel none dictTwo) [] 2 [3]
    (by omega) (by simp) rfl⟩

/-- C10: when the report document already exists and holds more data rows
than the current input has identifiers, the build step keeps the document
size, rewrites only rows 2..N+1 (N = number of identifiers; the header
row 1 and every row from N+2 on are untouched, styling included), and the
subsequent merge iterates the same unshrunk row range, so the surviving
stale rows are processed by it. -/
theorem builder_leaves_surplus_rows (w : Sheet) (d : List (String × Finding))
    (hM : d.length + 1 < w.length) :
    (write_to_excel (some w) d).length = w.length ∧
    (∀ r, 1 ≤ r → (r = 1 ∨ d.length + 2 ≤ r) →
      getRow (write_to_excel (some w) d) r = getRow w r) ∧
    (∀ i, i < d.length → getCellValue (write_to_excel (some w) d) (2 + i) 4
        = .str (d.getD i noEntry).1) ∧
    dataRowNums (write_to_excel (some w) d) = dataRowNums w := by
  have hlen : (write_to_excel (some w) d).length = w.length := by
    show (writeRows w 2 (d.map rowVals)).length = _
    rw [writeRows_length _ _ 2 (by omega) (fun row hrow => by
      obtain ⟨kv, _, rfl⟩ := List.mem_map.mp hrow
      simp [rowVals])]
    simp only [List.length_map]
    by_cases hd : d.length = 0
    · rw [if_pos hd]
    · rw [if_neg hd]
      omega
  refine ⟨hlen, ?_, ?_, ?_⟩
  · intro r hr hout
    show getRow (writeRows w 2 (d.map rowVals)) r = getRow w r
    apply writeRows_getRow_out _ _ 2 r (by omega) hr
    simp only [List.length_map]
    omega
  · intro i hi
    show getCellValue (writeRows w 2 (d.map rowVals)) (2 + i) 4 = _
    have h4 : (4 : Nat) = 1 + 3 := by omega
    rw [h4, writeRows_read (d.map rowVals) w 2 i 3 (by omega) (by simpa using hi)
        (by rw [getD_map_lt d noEntry [] i hi]; simp [rowVals]),
      getD_map_lt d noEntry [] i hi]
    rfl
  · unfold dataRowNums
    rw [hlen]

theorem builder_leaves_surplus_rows_witness :
    ([("CVE-C", ⟨"3", "Med", "Z"⟩)] : List (String × Finding)).length + 1
        < (write_to_excel none dictTwo).length ∧
    ((write_to_excel (some (write_to_excel none dictTwo))
        [("CVE-C", ⟨"3", "Med", "Z"⟩)]).length = (write_to_excel none dictTwo).length ∧
      (∀ r, 1 ≤ r → (r = 1 ∨ ([("CVE-C", ⟨"3", "Med", "Z"⟩)] :
          List (String × Finding)).length + 2 ≤ r) →
        getRow (write_to_excel (some (write_to_excel none dictTwo))
          [("CVE-C", ⟨"3", "Med", "Z"⟩)]) r = getRow (write_to_excel none dictTwo) r) ∧
      (∀ i, i < ([("CVE-C", ⟨"3", "Med", "Z"⟩)] : List (String × Finding)).length →
        getCellValue (write_to_excel (some (write_to_excel none dictTwo))
            [("CVE-C", ⟨"3", "Med", "Z"⟩)]) (2 + i) 4
          = .str (([("CVE-C", ⟨"3", "Med", "Z"⟩)] :
              List (String × Finding)).getD i noEntry).1) ∧
      dataRowNums (write_to_excel (some (write_to_excel none dictTwo))
          [("CVE-C", ⟨"3", "Med", "Z"⟩)])
        = dataRowNums (write_to_excel none dictTwo)) :=
  ⟨by decide,
    builder_leaves_surplus_rows (write_to_excel none dictTwo)
      [("CVE-C", ⟨"3", "Med", "Z"⟩)] (by decide)⟩

theorem pipeline_idempotent_witness :
    (∀ row ∈ csvExample, row.cve ≠ "" → (stV31.cache.lookup row.cve).isSome) ∧
    ((process_csv_file envFail (process_csv_file envFail stV31 csvExample none).1 csvExample
        (process_csv_file envFail stV31 csvExample none).2).2
      = (process_csv_file envFail stV31 csvExample none).2 ∧
    (process_csv_file envFail (process_csv_file envFail stV31 csvExample none).1 csvExample
        (process_csv_file envFail stV31 csvExample none).2).1.cache = stV31.cache) :=
  ⟨by intro row hrow hne; fin_cases hrow; rfl,
    pipeline_idempotent envFail stV31 csvExample
      (by intro row hrow hne; fin_cases hrow; rfl)⟩
